import Mathlib

/-!
# time-tracker: query construction, passport parsing and the stores

A shallow embedding of `internal/utils/utils.go`, `internal/models`,
`internal/repo/user.go`, `internal/repo/worklog.go`, `pkg/http-errors/err.go` and
the handlers `worklog/get.go`, `worklog/finish.go`, `user/create.go` and
`user/delete.go` of `internal/http-server/handlers` of `kuromii5/time-tracker`.

Conventions of the embedding.

* A Go `string` is a Lean `String` (a sequence of Unicode scalar values, i.e. a
  well-formed UTF-8 string); Go's `len(s)` is the number of bytes of the UTF-8
  encoding, `String.utf8ByteSize`.
* A Go call either returns normally with a `nil` error, returns normally with a
  non-`nil` error, or aborts with a run-time panic (here: index out of range).
  `GoResult` keeps the three apart.
* `[]interface{}` is a list of `Arg`, one constructor per dynamic type that the
  code stores in it.
* A method of `*DB` is a function of the pool method it calls and of the state of
  the store; it returns its Go results and the new state. The tables and the
  meaning of the statements are modelled from the specification, since the
  migrations are not among the sources. The statement of `Worklogs` is not taken
  on trust: the store parses its text and evaluates the condition on every row.
-/

namespace TimeTracker

/-! ## Go runtime: results, slices, strings -/

/-- Outcome of a Go call of result type `(α, error)`. -/
inductive GoResult (α : Type) where
  /-- normal return, `err == nil` -/
  | ret (v : α)
  /-- normal return with the zero value and a non-nil error carrying `msg` -/
  | err (msg : String)
  /-- run-time panic `index out of range [i] with length n` -/
  | indexPanic (i n : Nat)
  deriving DecidableEq, Repr

/-- Sequencing of Go evaluation: an error or a panic of the first step ends the call. -/
def GoResult.bind {α β : Type} (x : GoResult α) (f : α → GoResult β) : GoResult β :=
  match x with
  | .ret v => f v
  | .err m => .err m
  | .indexPanic i n => .indexPanic i n

/-- The index expression `parts[i]` on a slice: panics when `i` is out of range. -/
def index (parts : List String) (i : Nat) : GoResult String :=
  match parts[i]? with
  | some s => .ret s
  | none => .indexPanic i parts.length

/-- Go's builtin `len` on a string: the number of bytes. -/
def len (s : String) : Nat := s.utf8ByteSize

/-- The code points for which Go's `unicode.IsSpace` holds: in Latin-1
`'\t' '\n' '\v' '\f' '\r' ' '`, U+0085, U+00A0, and beyond it the characters
with the Unicode property White_Space. -/
def isSpace (c : Char) : Bool :=
  let n := c.toNat
  (9 ≤ n && n ≤ 13) || n = 0x20 || n = 0x85 || n = 0xA0 || n = 0x1680 ||
  (0x2000 ≤ n && n ≤ 0x200A) || n = 0x2028 || n = 0x2029 || n = 0x202F ||
  n = 0x205F || n = 0x3000

/-- The scan of `strings.Fields`: `cur` is the field being read (empty between
fields), the second argument the rest of the input. -/
def fieldsFrom : List Char → List Char → List String
  | cur, [] => if cur.isEmpty then [] else [String.mk cur]
  | cur, c :: cs =>
    if isSpace c then
      if cur.isEmpty then fieldsFrom [] cs else String.mk cur :: fieldsFrom [] cs
    else fieldsFrom (cur ++ [c]) cs

/-- Go's `strings.Fields`: the maximal runs of non-space characters of `s`, in
order; empty when `s` is empty or all white space. -/
def Fields (s : String) : List String := fieldsFrom [] s.data

/-! ## models/user.go -/

/-- The struct `models.Passport`. -/
structure Passport where
  Serie : String
  Number : String
  deriving DecidableEq, Repr

/-! ## utils.ParsePassportData -/

/-- The message of the error built by `fmt.Errorf` in `ParsePassportData`. -/
def errInvalidFormat : String := "invalid passportNumber format, expected '**** ******'"

/-- The condition of the `if` in `ParsePassportData`,
`len(parts) != 2 && len(parts[0]) != 4 && len(parts[1]) != 6`, evaluated left to
right with the short circuit of `&&`: an operand is evaluated only when all the
operands to its left are true. -/
def invalidFormatCond (parts : List String) : GoResult Bool :=
  if parts.length ≠ 2 then
    (index parts 0).bind fun p0 =>
      if len p0 ≠ 4 then
        (index parts 1).bind fun p1 => .ret (decide (len p1 ≠ 6))
      else .ret false
  else .ret false

/-- The function `utils.ParsePassportData`. -/
def ParsePassportData (data : String) : GoResult Passport :=
  let parts := Fields data
  (invalidFormatCond parts).bind fun bad =>
    if bad then .err errInvalidFormat
    else
      (index parts 0).bind fun p0 =>
        (index parts 1).bind fun p1 =>
          .ret { Serie := p0, Number := p1 }

/-! ## models/user.go, continued -/

/-- The part of a `time.Time` that `IsZero` reads: seconds since January 1, year 1,
00:00:00 UTC, and the nanoseconds within the second. -/
structure Time where
  sec : Int
  nsec : Nat
  deriving DecidableEq, Repr

/-- Go's `time.Time.IsZero`. -/
def Time.IsZero (t : Time) : Bool := t.sec == 0 && t.nsec == 0

/-- The struct `models.People`. -/
structure People where
  Name : String
  Surname : String
  Patronymic : String
  Address : String
  deriving DecidableEq, Repr

/-- The struct `models.User` (`ID` is an `int32`). -/
structure User where
  ID : Int
  CreatedAt : Time
  UpdatedAt : Time
  Passport : Passport
  People : People
  deriving DecidableEq, Repr

/-- The struct `models.FilterBy`. -/
structure FilterBy where
  Name : String
  Surname : String
  Patronymic : String
  Address : String
  CreatedAfter : Time
  CreatedBefore : Time
  PassportSerie : String
  PassportNumber : String
  deriving DecidableEq, Repr

/-- The struct `models.Pagination` (both fields are Go `int`). -/
structure Pagination where
  Limit : Int
  Offset : Int
  deriving DecidableEq, Repr

/-! ## utils.BuildGetUsersQuery -/

/-- An element of the `[]interface{}` argument list, by dynamic type. -/
inductive Arg where
  | string (s : String)
  | time (t : Time)
  | int (n : Int)
  | int32 (n : Int)
  deriving DecidableEq, Repr

/-- The verb `%d` of `fmt.Sprintf` on the placeholder counter, which is never
negative: its decimal digits. -/
def fmtInt (n : Nat) : String := toString n

/-- The local state of a query builder: the `strings.Builder`, `args` and `argIndex`. -/
structure Builder where
  text : String
  args : List Arg
  argIndex : Nat
  deriving DecidableEq, Repr

/-- The text every listing query starts with. -/
def baseQuery : String := "SELECT * FROM users WHERE 1=1"

/-- The map literal `stringFields`, entries in source order. -/
def stringFields (filter : FilterBy) : List (String × String) :=
  [("surname", filter.Surname),
   ("name", filter.Name),
   ("patronymic", filter.Patronymic),
   ("address", filter.Address),
   ("passport_serie", filter.PassportSerie),
   ("passport_number", filter.PassportNumber)]

/-- The keys of `stringFields`. -/
def stringFieldKeys : List String :=
  ["surname", "name", "patronymic", "address", "passport_serie", "passport_number"]

/-- The map index expression `m[key]` on a `map[string]string`: the zero value `""` for
a key that is absent. -/
def mapGet (m : List (String × String)) (key : String) : String :=
  (m.lookup key).getD ""

/-- The body of the loop over `stringFields`, for the entry `(field, value)`. -/
def filterStep (b : Builder) (field value : String) : Builder :=
  if value ≠ "" then
    { text := b.text ++ (" AND " ++ field ++ " = $" ++ fmtInt b.argIndex)
      args := b.args ++ [Arg.string value]
      argIndex := b.argIndex + 1 }
  else b

/-- The function `utils.BuildGetUsersQuery`. Go leaves the iteration order of
`range` over a map unspecified; `order` lists the keys in the order in which the
loop visits them (a permutation of `stringFieldKeys`). -/
def BuildGetUsersQuery (order : List String) (filter : FilterBy) (settings : Pagination) :
    String × List Arg :=
  let b0 : Builder := { text := baseQuery, args := [], argIndex := 1 }
  let b1 := order.foldl (fun b field => filterStep b field (mapGet (stringFields filter) field)) b0
  let b2 : Builder :=
    if !filter.CreatedAfter.IsZero then
      { text := b1.text ++ (" AND created_at > $" ++ fmtInt b1.argIndex)
        args := b1.args ++ [Arg.time filter.CreatedAfter]
        argIndex := b1.argIndex + 1 }
    else b1
  let b3 : Builder :=
    if !filter.CreatedBefore.IsZero then
      { text := b2.text ++ (" AND created_at < $" ++ fmtInt b2.argIndex)
        args := b2.args ++ [Arg.time filter.CreatedBefore]
        argIndex := b2.argIndex + 1 }
    else b2
  let b4 : Builder :=
    if settings.Limit > 0 then
      { text := b3.text ++ (" LIMIT $" ++ fmtInt b3.argIndex)
        args := b3.args ++ [Arg.int settings.Limit]
        argIndex := b3.argIndex + 1 }
    else b3
  let b5 : Builder :=
    if settings.Offset > 0 then
      { text := b4.text ++ (" OFFSET $" ++ fmtInt b4.argIndex)
        args := b4.args ++ [Arg.int settings.Offset]
        argIndex := b4.argIndex + 1 }
    else b4
  (b5.text, b5.args)

/-! ## utils.BuildUpdateUserQuery -/

/-- The closure `addField` of `BuildUpdateUserQuery`; `b.text` is the builder
`statements`. -/
def addField (b : Builder) (fieldName : String) (fieldValue : Arg) : Builder :=
  let sep : String := if len b.text > 0 then b.text ++ ", " else b.text
  { text := sep ++ (fieldName ++ " = $" ++ fmtInt b.argIndex)
    args := b.args ++ [fieldValue]
    argIndex := b.argIndex + 1 }

/-- The function `utils.BuildUpdateUserQuery`. -/
def BuildUpdateUserQuery (user : User) : String × List Arg :=
  let b0 : Builder := { text := "", args := [], argIndex := 1 }
  let b1 := if user.Passport.Serie ≠ "" then addField b0 "passport_serie" (.string user.Passport.Serie) else b0
  let b2 := if user.Passport.Number ≠ "" then addField b1 "passport_number" (.string user.Passport.Number) else b1
  let b3 := if user.People.Name ≠ "" then addField b2 "name" (.string user.People.Name) else b2
  let b4 := if user.People.Surname ≠ "" then addField b3 "surname" (.string user.People.Surname) else b3
  let b5 := if user.People.Patronymic ≠ "" then addField b4 "patronymic" (.string user.People.Patronymic) else b4
  let b6 := if user.People.Address ≠ "" then addField b5 "address" (.string user.People.Address) else b5
  let statements : String := if len b6.text > 0 then b6.text ++ ", " else b6.text
  let statements := statements ++ "updated_at = NOW()"
  let args := b6.args ++ [Arg.int32 user.ID]
  let query := "UPDATE users SET " ++ statements ++ " WHERE id = $" ++ fmtInt b6.argIndex
  (query, args)

/-! ## Reading a query text

The claims speak of the placeholders of a query and of the fragment each one
belongs to. `clauses` reads them off a text: it cuts the text at its
placeholders `$n` and returns, for every placeholder from left to right, the
text that precedes it (back to the previous placeholder) and its number. -/

/-- The scan behind `clauses`: `frag` is the text read since the last
placeholder, `num` the value of the digits read so far when a placeholder is
being read. -/
def scanClauses : List Char → Option Nat → List Char → List (String × Nat)
  | _, none, [] => []
  | frag, some n, [] => [(String.mk frag, n)]
  | frag, none, c :: cs =>
    if c = '$' then scanClauses frag (some 0) cs else scanClauses (frag ++ [c]) none cs
  | frag, some n, c :: cs =>
    if c.isDigit then scanClauses frag (some (n * 10 + (c.toNat - 48))) cs
    else if c = '$' then (String.mk frag, n) :: scanClauses [] (some 0) cs
    else (String.mk frag, n) :: scanClauses [c] none cs

/-- The placeholders of a text with the fragment each one closes. -/
def clauses (text : String) : List (String × Nat) := scanClauses [] none text.data

/-- The placeholder numbers of a text, left to right. -/
def placeholders (text : String) : List Nat := (clauses text).map Prod.snd

/-! ## The builder of §9 of the specification

The specification describes the text of a listing query as an ordered sequence
of (fragment, argument) pairs whose placeholders are numbered by position.
These definitions follow that description; the theorems compare them with the
code. -/

/-- The fragments `fs`, each closed by a placeholder, numbered from `k`. -/
def renderFrom : Nat → List String → String
  | _, [] => ""
  | k, f :: fs => f ++ ("$" ++ fmtInt k) ++ renderFrom (k + 1) fs

/-- The fragments `fs` paired with the numbers `k, k+1, ...`. -/
def numberFrom : Nat → List String → List (String × Nat)
  | _, [] => []
  | k, f :: fs => (f, k) :: numberFrom (k + 1) fs

/-- The equality fragment of a column. -/
def eqFragment (col : String) : String := " AND " ++ col ++ " = "

/-- The pairs contributed by the string fields, visited in `order`. -/
def stringBindings (order : List String) (filter : FilterBy) : List (String × Arg) :=
  order.filterMap fun field =>
    let value := mapGet (stringFields filter) field
    if value ≠ "" then some (eqFragment field, Arg.string value) else none

/-- The pairs contributed by the two timestamps. -/
def timeBindings (filter : FilterBy) : List (String × Arg) :=
  (if !filter.CreatedAfter.IsZero then [(" AND created_at > ", Arg.time filter.CreatedAfter)]
   else []) ++
  (if !filter.CreatedBefore.IsZero then [(" AND created_at < ", Arg.time filter.CreatedBefore)]
   else [])

/-- The pair contributed by `Limit`. -/
def limitBinding (settings : Pagination) : List (String × Arg) :=
  if settings.Limit > 0 then [(" LIMIT ", Arg.int settings.Limit)] else []

/-- The pair contributed by `Offset`. -/
def offsetBinding (settings : Pagination) : List (String × Arg) :=
  if settings.Offset > 0 then [(" OFFSET ", Arg.int settings.Offset)] else []

/-- All pairs of a listing query, in the order in which they are emitted. -/
def bindings (order : List String) (filter : FilterBy) (settings : Pagination) :
    List (String × Arg) :=
  stringBindings order filter ++ (timeBindings filter ++
    (limitBinding settings ++ offsetBinding settings))

/-- The value that a fragment of a listing query constrains: the filter field of
the column for an equality fragment, the timestamp for a `created_at` comparison,
the page setting for `LIMIT` and `OFFSET`. -/
def boundValue (filter : FilterBy) (settings : Pagination) (frag : String) : Option Arg :=
  if frag = " AND created_at > " then some (Arg.time filter.CreatedAfter)
  else if frag = " AND created_at < " then some (Arg.time filter.CreatedBefore)
  else if frag = " LIMIT " then some (Arg.int settings.Limit)
  else if frag = " OFFSET " then some (Arg.int settings.Offset)
  else (stringFields filter).findSome? fun e =>
    if frag = eqFragment e.1 then some (Arg.string e.2) else none

/-- The builder state after the pairs `bs` have been emitted from the state `b`. -/
def Builder.emit (b : Builder) (bs : List (String × Arg)) : Builder :=
  { text := b.text ++ renderFrom b.argIndex (bs.map Prod.fst)
    args := b.args ++ bs.map Prod.snd
    argIndex := b.argIndex + bs.length }

/-- The number that a run of decimal digits denotes, read after the value `n`. -/
def digitsValue (n : Nat) (ds : List Char) : Nat :=
  ds.foldl (fun a c => a * 10 + (c.toNat - 48)) n

/-- A fragment that `clauses` reads back unchanged: it holds no `$` and starts
with a character that is not a digit. -/
def GoodFragment (f : String) : Prop :=
  '$' ∉ f.data ∧ f.data.head?.map Char.isDigit = some false

instance : DecidablePred GoodFragment := fun f => by
  unfold GoodFragment
  infer_instance

/-- A fragment of the WHERE part of a listing query: it starts with ` AND `. -/
def IsWherePredicate (frag : String) : Prop := " AND ".data <+: frag.data

instance : DecidablePred IsWherePredicate := fun f => by
  unfold IsWherePredicate
  infer_instance

/-! ## The SET list of an update, as the specification words it -/

/-- The six optional columns of an update with the user's values, in the order
of the `if` statements of `BuildUpdateUserQuery`. -/
def updateFields (user : User) : List (String × String) :=
  [("passport_serie", user.Passport.Serie),
   ("passport_number", user.Passport.Number),
   ("name", user.People.Name),
   ("surname", user.People.Surname),
   ("patronymic", user.People.Patronymic),
   ("address", user.People.Address)]

/-- The columns of `updateFields`. -/
def updateColumns : List String :=
  ["passport_serie", "passport_number", "name", "surname", "patronymic", "address"]

/-- The entries of `updateFields` whose value is not empty. -/
def activeFields (user : User) : List (String × String) :=
  (updateFields user).filter fun e => decide (e.2 ≠ "")

/-- The assignments `col = $i` of the columns `cols`, `i` counting from `k`. -/
def assignmentsFrom : Nat → List String → List String
  | _, [] => []
  | k, c :: cs => (c ++ " = $" ++ fmtInt k) :: assignmentsFrom (k + 1) cs

/-- The update statement that sets the columns `cols`. -/
def updateText (cols : List String) : String :=
  "UPDATE users SET " ++
    ", ".intercalate (assignmentsFrom 1 cols ++ ["updated_at = NOW()"]) ++
    " WHERE id = $" ++ fmtInt (cols.length + 1)

/-- The number of positions of `text` at which `pat` starts. -/
def countFrom (pat : List Char) : List Char → Nat
  | [] => if pat.isEmpty then 1 else 0
  | c :: cs => (if pat.isPrefixOf (c :: cs) then 1 else 0) + countFrom pat cs

/-- The number of occurrences of `pat` in `text`. -/
def occurrences (pat text : String) : Nat := countFrom pat.data text.data

/-! ## Sample inputs -/

/-- A filter with `Name` and `Address` set and a lower bound on the creation time. -/
def sampleFilter : FilterBy :=
  { Name := "Ann", Surname := "", Patronymic := "", Address := "Elm St",
    CreatedAfter := { sec := 63000000000, nsec := 0 }, CreatedBefore := { sec := 0, nsec := 0 },
    PassportSerie := "", PassportNumber := "" }

/-- A page of five rows from the start. -/
def samplePage : Pagination := { Limit := 5, Offset := 0 }

/-! ## Go errors -/

/-- The two packages that declare a struct `PgError`. A value of the one type is
not a value of the other. -/
inductive PgPackage where
  /-- the module `github.com/jackc/pgconn`, imported by `repo/user.go` -/
  | pgconn
  /-- the package `github.com/jackc/pgx/v5/pgconn` of the driver `pgx/v5`, whose
  pool `repo/db.go` creates -/
  | pgxV5
  deriving DecidableEq, Repr

/-- A Go `error` value, as far as the repository tells errors apart. -/
inductive GoError where
  /-- a package-level variable made by `errors.New(msg)` -/
  | sentinel (msg : String)
  /-- a `*PgError` of the package `pkg` with SQLSTATE `Code` -/
  | pgError (pkg : PgPackage) (Code : String)
  /-- the value of `fmt.Errorf("%s: %w", op, err)` -/
  | wrap (op : String) (err : GoError)
  /-- the value of `fmt.Errorf(msg)` or `errors.New(msg)` made inside a function -/
  | errorf (msg : String)
  /-- any other error of the driver -/
  | other (msg : String)
  deriving DecidableEq, Repr

/-- Go's `errors.Is`: `err` or an error it wraps is `target`. -/
def errorsIs : GoError → GoError → Bool
  | .wrap op err, target => decide (GoError.wrap op err = target) || errorsIs err target
  | err, target => decide (err = target)

/-- Go's `errors.As` with a target of type `*PgError` of the package `pkg`: the
`Code` of the first such error in the chain of `err`. -/
def errorsAsPgError (pkg : PgPackage) : GoError → Option String
  | .pgError p code => if p = pkg then some code else none
  | .wrap _ err => errorsAsPgError pkg err
  | _ => none

/-- The variable `pgx.ErrNoRows` of `pgx/v5`. -/
def pgxErrNoRows : GoError := .sentinel "no rows in result set"

/-- The variable `repo.ErrAlreadyDone`. -/
def ErrAlreadyDone : GoError := .sentinel "worklog was already finished"

/-- The variable `repo.ErrUserNotFound`. -/
def ErrUserNotFound : GoError := .sentinel "user not found"

/-- The variable `repo.ErrPassportDuplicate`. -/
def ErrPassportDuplicate : GoError := .sentinel "user with such serie and number already exists"

/-! ## repo/user.go

The methods of `*DB` reach the store through `db.pool` only. Each is given the
pool method it calls as a function of the statement text, the arguments and the
state `σ` of the store, returning the outcome and the new state. -/

/-- The statement of `CreateUser`. -/
def createUserQuery : String :=
  "\n\t\tINSERT INTO users (passport_serie, passport_number, name, surname, patronymic, address, created_at, updated_at)\n\t\tVALUES ($1, $2, $3, $4, $5, $6, NOW(), NOW())\n\t\tRETURNING id\n\t"

/-- The method `(*DB).CreateUser`; `QueryRowScan` is
`db.pool.QueryRow(ctx, query, args...).Scan(&userId)`. The target of `errors.As`
is declared `*pgconn.PgError` with `pgconn` the import of `user.go`. -/
def CreateUser {σ : Type} (QueryRowScan : String → List Arg → σ → Except GoError Int × σ)
    (user : User) (s : σ) : (Int × Option GoError) × σ :=
  match QueryRowScan createUserQuery
      [.string user.Passport.Serie, .string user.Passport.Number, .string user.People.Name,
       .string user.People.Surname, .string user.People.Patronymic,
       .string user.People.Address] s with
  | (.error err, s') =>
    if errorsAsPgError PgPackage.pgconn err = some "23505" then
      ((0, some ErrPassportDuplicate), s')
    else ((0, some (.wrap "repo.CreateUser" err)), s')
  | (.ok userId, s') => ((userId, none), s')

/-- The method `(*DB).DeleteUser`; `Exec` is `db.pool.Exec(ctx, query, id)`,
whose first result, the command tag, is given by its count of affected rows. -/
def DeleteUser {σ : Type} (Exec : String → List Arg → σ → Except GoError Nat × σ)
    (id : Int) (s : σ) : Option GoError × σ :=
  match Exec "DELETE FROM users WHERE id = $1" [.int32 id] s with
  | (.error err, s') =>
    if errorsIs err pgxErrNoRows then (some (.wrap "repo.DeleteUser" ErrUserNotFound), s')
    else (some (.wrap "repo.DeleteUser" err), s')
  | (.ok _, s') => (none, s')

/-- The method `(*DB).UpdateUser`; `Exec` is `db.pool.Exec(ctx, query, args...)`. -/
def UpdateUser {σ : Type} (Exec : String → List Arg → σ → Except GoError Nat × σ)
    (user : User) (s : σ) : Option GoError × σ :=
  match Exec (BuildUpdateUserQuery user).1 (BuildUpdateUserQuery user).2 s with
  | (.error err, s') => (some (.wrap "repo.UpdateUser" err), s')
  | (.ok _, s') => (none, s')

/-- Modelled from the spec: the `users` table as far as `CreateUser` needs it,
with the unique constraint over (passport series, passport number) of §3 and §6;
the migration that declares the table is not among the sources. The rows are
(id, passport) and `nextID` is the next surrogate id. -/
structure UsersTable where
  rows : List (Int × Passport)
  nextID : Int
  deriving DecidableEq, Repr

/-- Modelled from the spec: `QueryRow(...).Scan(&userId)` on the `users` table for
the statement of `CreateUser`. A violation of the unique constraint is reported
the way the pool of `repo/db.go` reports a server error: a `*PgError` of
`pgx/v5/pgconn` with SQLSTATE 23505. -/
def UsersTable.QueryRowScan (query : String) (args : List Arg) (t : UsersTable) :
    Except GoError Int × UsersTable :=
  if query = createUserQuery then
    match args with
    | [.string serie, .string number, .string _, .string _, .string _, .string _] =>
      if t.rows.any (fun r => decide (r.2 = { Serie := serie, Number := number })) then
        (.error (.pgError PgPackage.pgxV5 "23505"), t)
      else
        (.ok t.nextID,
          { rows := t.rows ++ [(t.nextID, { Serie := serie, Number := number })],
            nextID := t.nextID + 1 })
    | _ => (.error (.other "wrong number or type of arguments"), t)
  else (.error (.other "statement not modelled"), t)

/-! ## models/worklog.go and repo/worklog.go -/

/-- The struct `models.Worklog` (`Duration` is a `time.Duration`, an `int64` of
nanoseconds). -/
structure Worklog where
  ID : Int
  UserID : Int
  Task : String
  StartedAt : Time
  FinishedAt : Time
  Duration : Int
  deriving DecidableEq, Repr

/-- Modelled from the spec: a row of the table `worklogs` (§3, §6): surrogate id,
owning user, task, start timestamp and nullable finish timestamp. The migration
that declares the table is not among the sources; the column `duration`, which
no statement of the repository writes, is left out. -/
structure WorklogRow where
  id : Int
  user_id : Int
  task : String
  started_at : Time
  finished_at : Option Time
  deriving DecidableEq, Repr

/-- The statement of `StartWorklog`. -/
def startWorklogQuery : String :=
  "\n\t\tINSERT INTO worklogs (user_id, task, started_at)\n\t\tVALUES ($1, $2, NOW())\n\t\tRETURNING ID\n\t"

/-- The statement of `FinishWorklog`. -/
def finishWorklogQuery : String :=
  "\n\t\tUPDATE worklogs\n\t\tSET finished_at = NOW()\n\t\tWHERE id = $1 AND finished_at IS NULL\n\t\tRETURNING id\n\t"

/-- The statement of `Worklogs`. -/
def worklogsQuery : String :=
  "\n\t\tSELECT * FROM worklogs\n\t\tWHERE user_id = $1 AND started_at >= $2 AND (finished_at <= $3 OR finished_at IS NULL)\n\t\tORDER BY duration DESC\n\t"

/-- The method `(*DB).StartWorklog`; `QueryRowScan` is
`db.pool.QueryRow(ctx, query, userID, task).Scan(&worklogId)`. -/
def StartWorklog {σ : Type} (QueryRowScan : String → List Arg → σ → Except GoError Int × σ)
    (task : String) (userID : Int) (s : σ) : (Int × Option GoError) × σ :=
  match QueryRowScan startWorklogQuery [.int32 userID, .string task] s with
  | (.error err, s') => ((0, some (.wrap "repo.StartWorklog" err)), s')
  | (.ok worklogId, s') => ((worklogId, none), s')

/-- The method `(*DB).FinishWorklog`; `QueryRowScan` is
`db.pool.QueryRow(ctx, query, worklogID).Scan(&id)`. -/
def FinishWorklog {σ : Type} (QueryRowScan : String → List Arg → σ → Except GoError Int × σ)
    (worklogID : Int) (s : σ) : Option GoError × σ :=
  match QueryRowScan finishWorklogQuery [.int32 worklogID] s with
  | (.error err, s') =>
    if errorsIs err pgxErrNoRows then (some ErrAlreadyDone, s')
    else (some (.wrap "repo.FinishWorklog" err), s')
  | (.ok _, s') => (none, s')

/-- The error of `rows.Scan` of `pgx/v5` on a NULL for the destination
`&worklog.FinishedAt`, the fourth of the call. -/
def scanNullTime : GoError :=
  .other "can't scan into dest[3]: cannot scan NULL into *time.Time"

/-- The call `rows.Scan(&worklog.ID, &worklog.UserID, &worklog.StartedAt,
&worklog.FinishedAt, &worklog.Task, &worklog.Duration)` on a row. The
destination `&worklog.FinishedAt` is a `*time.Time` (`models/worklog.go`), which
the driver cannot fill from NULL: on a row whose `finished_at` is NULL the call
fails. `decode` is what the call reads from a row without NULL; it depends on
the columns of the table, which are not among the sources. -/
def rowsScan (decode : WorklogRow → Except GoError Worklog) (row : WorklogRow) :
    Except GoError Worklog :=
  match row.finished_at with
  | none => .error scanNullTime
  | some _ => decode row

/-- The loop `for rows.Next()` of `Worklogs`: `Scan` is `rows.Scan` into the six
fields of a `models.Worklog`, `worklogs` the slice built so far. -/
def scanRows (Scan : WorklogRow → Except GoError Worklog) :
    List WorklogRow → List Worklog → Except GoError (List Worklog)
  | [], worklogs => .ok worklogs
  | row :: rows, worklogs =>
    match Scan row with
    | .error err => .error (.wrap "repo.Worklogs" err)
    | .ok worklog => scanRows Scan rows (worklogs ++ [worklog])

/-- The method `(*DB).Worklogs`; `Query` is
`db.pool.Query(ctx, query, userID, startDate, endDate)`, which gives either an
error or the rows in the order of their delivery together with the value of
`rows.Err()` after the last of them. -/
def Worklogs {σ : Type}
    (Query : String → List Arg → σ → Except GoError (List WorklogRow × Option GoError) × σ)
    (Scan : WorklogRow → Except GoError Worklog)
    (userID : Int) (startDate endDate : Time) (s : σ) : Except GoError (List Worklog) × σ :=
  match Query worklogsQuery [.int32 userID, .time startDate, .time endDate] s with
  | (.error err, s') => (.error (.wrap "repo.Worklogs" err), s')
  | (.ok (rows, rowsErr), s') =>
    match scanRows Scan rows [] with
    | .error err => (.error err, s')
    | .ok worklogs =>
      match rowsErr with
      | some err => (.error (.wrap "repo.Worklogs" err), s')
      | none => (.ok worklogs, s')

/-! ## The store behind `db.pool`, for the table `worklogs` -/

/-- The order of SQL on timestamps: `a <= b`. -/
def Time.le (a b : Time) : Bool :=
  decide (a.sec < b.sec) || (decide (a.sec = b.sec) && decide (a.nsec ≤ b.nsec))

/-- Modelled from the spec: the table `worklogs` and the sequence that assigns
its surrogate ids. -/
structure Store where
  worklogs : List WorklogRow
  nextID : Int
  deriving DecidableEq, Repr

/-- The store before any statement. -/
def Store.empty : Store := { worklogs := [], nextID := 1 }

/-- What one call meets outside the table: the time that `NOW()` reads, the
failure that the driver reports instead of executing the statement (if any),
the order in which the store delivers the selected rows (`ORDER BY duration DESC`
permutes them), the value of `rows.Err()` after the last row, and what
`rows.Scan` reads from a row without NULL (the `decode` of `rowsScan`). -/
structure Call where
  now : Time
  fault : Option GoError
  order : List WorklogRow → List WorklogRow
  rowsErr : Option GoError
  Scan : WorklogRow → Except GoError Worklog

/-- The rows that the statement of `FinishWorklog` changes:
`WHERE id = $1 AND finished_at IS NULL`. -/
def isOpen (worklogID : Int) (row : WorklogRow) : Bool :=
  decide (row.id = worklogID) && row.finished_at.isNone

/-- The effect of `SET finished_at = NOW()` on the rows that `isOpen` selects. -/
def closeAt (now : Time) (worklogID : Int) (row : WorklogRow) : WorklogRow :=
  if isOpen worklogID row then { row with finished_at := some now } else row

/-- The selection that the specification states for `Worklogs` (§4.2): the rows
of the user `p1` that started at or after `p2` and are finished at or before
`p3` or still open. The store does not use it: it evaluates the text of the
statement. -/
def selected (p1 : Int) (p2 p3 : Time) (row : WorklogRow) : Bool :=
  decide (row.user_id = p1) && Time.le p2 row.started_at &&
    (match row.finished_at with
     | some f => Time.le f p3
     | none => true)

/-- Modelled from the spec: `QueryRow(...).Scan(&id)` on the store, for the two
statements of `worklog.go` that return an id. `Scan` on an empty result is
`pgx.ErrNoRows`; otherwise it reads the first row returned. -/
def Store.QueryRowScan (c : Call) (query : String) (args : List Arg) (s : Store) :
    Except GoError Int × Store :=
  match c.fault with
  | some err => (.error err, s)
  | none =>
    if query = startWorklogQuery then
      match args with
      | [.int32 userID, .string task] =>
        (.ok s.nextID,
          { worklogs := s.worklogs ++
              [{ id := s.nextID, user_id := userID, task := task, started_at := c.now,
                 finished_at := none }],
            nextID := s.nextID + 1 })
      | _ => (.error (.other "wrong number or type of arguments"), s)
    else if query = finishWorklogQuery then
      match args with
      | [.int32 worklogID] =>
        match (s.worklogs.filter (isOpen worklogID)).map (fun row => row.id) with
        | [] => (.error pgxErrNoRows, { s with worklogs := s.worklogs.map (closeAt c.now worklogID) })
        | id :: _ => (.ok id, { s with worklogs := s.worklogs.map (closeAt c.now worklogID) })
      | _ => (.error (.other "wrong number or type of arguments"), s)
    else (.error (.other "statement not modelled"), s)

/-! ### The text of a `SELECT` statement

`Store.Query` reads the text that `Worklogs` passes: the text is cut into
tokens, the condition after `WHERE` is parsed, and every row of the table is
tested against it with the arguments bound to `$1, $2, ...`. -/

/-- The tokens of a statement: the words between white space, a parenthesis
being a token of its own. -/
def sqlTokens (text : String) : List String :=
  Fields (String.mk (text.data.flatMap fun ch =>
    if ch = '(' ∨ ch = ')' then [' ', ch, ' '] else [ch]))

/-- The comparison operators of a condition. -/
inductive CmpOp where
  | eq
  | lt
  | le
  | gt
  | ge
  deriving DecidableEq, Repr

/-- The operator that a token spells. -/
def cmpOp (tok : String) : Option CmpOp :=
  if tok = "=" then some .eq
  else if tok = "<" then some .lt
  else if tok = "<=" then some .le
  else if tok = ">" then some .gt
  else if tok = ">=" then some .ge
  else none

/-- The number `n` of a placeholder token `$n`. -/
def paramIndex (tok : String) : Option Nat :=
  match tok.data with
  | '$' :: d :: ds =>
    if (d :: ds).all Char.isDigit then
      some ((d :: ds).foldl (fun n ch => 10 * n + (ch.toNat - 48)) 0)
    else none
  | _ => none

/-- A condition of a `WHERE` clause: a column compared with a placeholder, a
column tested for NULL, a conjunction, a disjunction. -/
inductive Cond where
  | cmp (column : String) (op : CmpOp) (param : Nat)
  | isNull (column : String)
  | and (a b : Cond)
  | or (a b : Cond)
  deriving DecidableEq, Repr

/-- One operand of `AND`: a condition in parentheses (read by `sub`),
`column IS NULL`, or `column op $n`. -/
def parseFactor (sub : List String → Option (Cond × List String)) (toks : List String) :
    Option (Cond × List String) :=
  match toks with
  | [] => none
  | tok :: rest =>
    if tok = "(" then
      match sub rest with
      | some (cond, close :: rest') => if close = ")" then some (cond, rest') else none
      | _ => none
    else
      match rest with
      | t1 :: t2 :: rest' =>
        if t1 = "IS" ∧ t2 = "NULL" then some (.isNull tok, rest')
        else
          match cmpOp t1, paramIndex t2 with
          | some op, some n => some (.cmp tok op n, rest')
          | _, _ => none
      | _ => none

/-- The operands of `AND` that follow the condition `acc`. -/
def parseAndTail (sub : List String → Option (Cond × List String)) :
    Nat → Cond → List String → Option (Cond × List String)
  | 0, acc, toks => some (acc, toks)
  | fuel + 1, acc, toks =>
    match toks with
    | tok :: rest =>
      if tok = "AND" then
        match parseFactor sub rest with
        | some (cond, rest') => parseAndTail sub fuel (.and acc cond) rest'
        | none => none
      else some (acc, toks)
    | [] => some (acc, toks)

/-- One operand of `OR`: operands of `AND`, which binds tighter. -/
def parseTerm (sub : List String → Option (Cond × List String)) (fuel : Nat)
    (toks : List String) : Option (Cond × List String) :=
  match parseFactor sub toks with
  | some (cond, rest) => parseAndTail sub fuel cond rest
  | none => none

/-- The operands of `OR` that follow the condition `acc`. -/
def parseOrTail (sub : List String → Option (Cond × List String)) :
    Nat → Cond → List String → Option (Cond × List String)
  | 0, acc, toks => some (acc, toks)
  | fuel + 1, acc, toks =>
    match toks with
    | tok :: rest =>
      if tok = "OR" then
        match parseTerm sub fuel rest with
        | some (cond, rest') => parseOrTail sub fuel (.or acc cond) rest'
        | none => none
      else some (acc, toks)
    | [] => some (acc, toks)

/-- A condition, with the tokens that follow it; `fuel` bounds the depth of
the parentheses and the number of operands. -/
def parseCond : Nat → List String → Option (Cond × List String)
  | 0, _ => none
  | fuel + 1, toks =>
    match parseTerm (parseCond fuel) fuel toks with
    | some (cond, rest) => parseOrTail (parseCond fuel) fuel cond rest
    | none => none

/-- The condition of a statement `SELECT * FROM worklogs WHERE ... [ORDER BY
column [DESC]]`. The order is not read: the rows have no column `duration`,
and the order of delivery is given by the call. -/
def parseSelect (query : String) : Option Cond :=
  match sqlTokens query with
  | t1 :: t2 :: t3 :: t4 :: t5 :: toks =>
    if t1 = "SELECT" ∧ t2 = "*" ∧ t3 = "FROM" ∧ t4 = "worklogs" ∧ t5 = "WHERE" then
      match parseCond (toks.length + 1) toks with
      | some (cond, []) => some cond
      | some (cond, [o, b, _]) => if o = "ORDER" ∧ b = "BY" then some cond else none
      | some (cond, [o, b, _, d]) =>
        if o = "ORDER" ∧ b = "BY" ∧ (d = "DESC" ∨ d = "ASC") then some cond else none
      | _ => none
    else none
  | _ => none

/-- A value of SQL as far as the table `worklogs` holds them. -/
inductive Val where
  | int (n : Int)
  | time (t : Time)
  | text (s : String)
  | null
  deriving DecidableEq, Repr

/-- The value of a column of a row; `none` for a column that the table does
not have. -/
def WorklogRow.column (row : WorklogRow) (name : String) : Option Val :=
  if name = "id" then some (.int row.id)
  else if name = "user_id" then some (.int row.user_id)
  else if name = "task" then some (.text row.task)
  else if name = "started_at" then some (.time row.started_at)
  else if name = "finished_at" then
    some (match row.finished_at with
          | some f => .time f
          | none => .null)
  else none

/-- The value that an argument of the call binds to a placeholder. -/
def argVal : Arg → Val
  | .string s => .text s
  | .time t => .time t
  | .int n => .int n
  | .int32 n => .int n

/-- The value bound to `$n`; `none` when the call has fewer arguments. -/
def paramVal (args : List Arg) (n : Nat) : Option Val :=
  match n with
  | 0 => none
  | k + 1 => (args[k]?).map argVal

/-- The operator on two values of which `le` says `a <= b` and `ge` says `a >= b`. -/
def CmpOp.holds (op : CmpOp) (le ge : Bool) : Bool :=
  match op with
  | .eq => le && ge
  | .lt => le && !ge
  | .le => le
  | .gt => ge && !le
  | .ge => ge

/-- A comparison of SQL: unknown (`some none`) when a side is NULL, an error
(`none`) when the types differ. -/
def compareVals (op : CmpOp) : Val → Val → Option (Option Bool)
  | .null, _ => some none
  | _, .null => some none
  | .int a, .int b => some (some (op.holds (decide (a ≤ b)) (decide (b ≤ a))))
  | .time a, .time b => some (some (op.holds (Time.le a b) (Time.le b a)))
  | .text a, .text b => some (some (op.holds (decide (a ≤ b)) (decide (b ≤ a))))
  | _, _ => none

/-- The `AND` of SQL on true, false and unknown. -/
def and3 : Option Bool → Option Bool → Option Bool
  | some false, _ => some false
  | _, some false => some false
  | some true, some true => some true
  | _, _ => none

/-- The `OR` of SQL on true, false and unknown. -/
def or3 : Option Bool → Option Bool → Option Bool
  | some true, _ => some true
  | _, some true => some true
  | some false, some false => some false
  | _, _ => none

/-- The value of a condition on a row: true, false or unknown; `none` when the
statement is in error (a column that does not exist, a placeholder without an
argument, a comparison across types). -/
def Cond.eval (args : List Arg) (row : WorklogRow) : Cond → Option (Option Bool)
  | .cmp column op n =>
    match row.column column, paramVal args n with
    | some a, some b => compareVals op a b
    | _, _ => none
  | .isNull column =>
    match row.column column with
    | some v => some (some (decide (v = .null)))
    | none => none
  | .and a b =>
    match Cond.eval args row a, Cond.eval args row b with
    | some x, some y => some (and3 x y)
    | _, _ => none
  | .or a b =>
    match Cond.eval args row a, Cond.eval args row b with
    | some x, some y => some (or3 x y)
    | _, _ => none

/-- The rows on which the condition is true, in the order of the table; `none`
when the statement is in error on a row. -/
def selectRows (cond : Cond) (args : List Arg) : List WorklogRow → Option (List WorklogRow)
  | [] => some []
  | row :: rows =>
    match cond.eval args row, selectRows cond args rows with
    | some v, some out => some (if v = some true then row :: out else out)
    | _, _ => none

/-- Modelled from the spec: `Query` on the store: the rows of the table on which
the condition of the statement `query` is true with `args` bound, in the order
of delivery. -/
def Store.Query (c : Call) (query : String) (args : List Arg) (s : Store) :
    Except GoError (List WorklogRow × Option GoError) × Store :=
  match c.fault with
  | some err => (.error err, s)
  | none =>
    match parseSelect query with
    | none => (.error (.other "statement not modelled"), s)
    | some cond =>
      match selectRows cond args s.worklogs with
      | none => (.error (.other "wrong number or type of arguments"), s)
      | some rows => (.ok (c.order rows, c.rowsErr), s)

/-! ## The worklog state machine -/

/-- The operations of the worklog store. -/
inductive Op where
  | start (task : String) (userID : Int)
  | finish (worklogID : Int)
  | list (userID : Int) (startDate endDate : Time)
  deriving DecidableEq, Repr

/-- What an operation returns. -/
inductive Ret where
  | started (worklogId : Int) (err : Option GoError)
  | finished (err : Option GoError)
  | listed (res : Except GoError (List Worklog))

/-- One operation on the store, under the circumstances `c`. -/
def step (c : Call) (op : Op) (s : Store) : Ret × Store :=
  match op with
  | .start task userID =>
    ((Ret.started (StartWorklog (Store.QueryRowScan c) task userID s).1.1
        (StartWorklog (Store.QueryRowScan c) task userID s).1.2),
      (StartWorklog (Store.QueryRowScan c) task userID s).2)
  | .finish worklogID =>
    (Ret.finished (FinishWorklog (Store.QueryRowScan c) worklogID s).1,
      (FinishWorklog (Store.QueryRowScan c) worklogID s).2)
  | .list userID startDate endDate =>
    (Ret.listed (Worklogs (Store.Query c) (rowsScan c.Scan) userID startDate endDate s).1,
      (Worklogs (Store.Query c) (rowsScan c.Scan) userID startDate endDate s).2)

/-- The states that the operations reach from the empty store. -/
inductive Reachable : Store → Prop where
  | empty : Reachable Store.empty
  | step (c : Call) (op : Op) {s : Store} (h : Reachable s) : Reachable (step c op s).2

/-- The calls of `FinishWorklog` on `worklogID` in a run of operations from the
state `s`, in order: for each the failure that the driver reported (if any) and
the error that the call returned. -/
def finishOutcomes (worklogID : Int) :
    List (Call × Op) → Store → List (Option GoError × Option GoError)
  | [], _ => []
  | (c, op) :: rest, s =>
    match op with
    | .finish w =>
      if w = worklogID then
        (c.fault, (FinishWorklog (Store.QueryRowScan c) w s).1) ::
          finishOutcomes worklogID rest (step c op s).2
      else finishOutcomes worklogID rest (step c op s).2
    | _ => finishOutcomes worklogID rest (step c op s).2

/-- The ids in use lie below the sequence and are pairwise different. -/
def StoreInv (s : Store) : Prop :=
  (∀ row ∈ s.worklogs, row.id < s.nextID) ∧ (s.worklogs.map fun row => row.id).Nodup

/-- No row with this id is open, and the sequence has passed the id. -/
def Closed (worklogID : Int) (s : Store) : Prop :=
  worklogID < s.nextID ∧ ∀ row ∈ s.worklogs, isOpen worklogID row = false

/-! ## Two concurrent calls of FinishWorklog

A call of `FinishWorklog` touches the store in one place, the statement that
`QueryRow` sends; the store executes a statement as one step. Between two
concurrent calls the steps that can be interleaved are, for each call, the
execution of its statement and its return. -/

/-- The two callers. -/
inductive Caller where
  | A
  | B
  deriving DecidableEq, Repr

/-- The steps of the two calls. -/
inductive Event where
  /-- the store executes the statement of the call and `Scan` reads the outcome -/
  | exec (who : Caller)
  /-- the call maps the outcome to its result and returns -/
  | ret (who : Caller)
  deriving DecidableEq, Repr

/-- The state of the two calls: the store, the outcome of `Scan` for each call
whose statement has been executed, the result of each call that has returned,
and the number of statements that changed the table. -/
structure Race where
  store : Store
  scanA : Option (Except GoError Int)
  scanB : Option (Except GoError Int)
  retA : Option (Option GoError)
  retB : Option (Option GoError)
  writes : Nat

/-- Both calls before their first step. -/
def Race.init (s : Store) : Race :=
  { store := s, scanA := none, scanB := none, retA := none, retB := none, writes := 0 }

/-- One step of one of the two calls of `FinishWorklog worklogID`, made under the
circumstances `cA` and `cB`. The return of a call is `FinishWorklog` run on the
outcome that its statement had. -/
def raceStep (cA cB : Call) (worklogID : Int) (e : Event) (r : Race) : Race :=
  match e with
  | .exec .A =>
    match r.scanA with
    | some _ => r
    | none =>
      { r with
        store := (Store.QueryRowScan cA finishWorklogQuery [.int32 worklogID] r.store).2
        scanA := some (Store.QueryRowScan cA finishWorklogQuery [.int32 worklogID] r.store).1
        writes :=
          if (Store.QueryRowScan cA finishWorklogQuery [.int32 worklogID] r.store).2 = r.store
          then r.writes else r.writes + 1 }
  | .exec .B =>
    match r.scanB with
    | some _ => r
    | none =>
      { r with
        store := (Store.QueryRowScan cB finishWorklogQuery [.int32 worklogID] r.store).2
        scanB := some (Store.QueryRowScan cB finishWorklogQuery [.int32 worklogID] r.store).1
        writes :=
          if (Store.QueryRowScan cB finishWorklogQuery [.int32 worklogID] r.store).2 = r.store
          then r.writes else r.writes + 1 }
  | .ret .A =>
    match r.scanA with
    | some scan =>
      { r with retA := some (FinishWorklog (fun _ _ s => (scan, s)) worklogID r.store).1 }
    | none => r
  | .ret .B =>
    match r.scanB with
    | some scan =>
      { r with retB := some (FinishWorklog (fun _ _ s => (scan, s)) worklogID r.store).1 }
    | none => r

/-- The state after the steps of a schedule. -/
def runRace (cA cB : Call) (worklogID : Int) (sched : List Event) (s : Store) : Race :=
  sched.foldl (fun r e => raceStep cA cB worklogID e r) (Race.init s)

/-- The interleavings of `x :: xs` with a second sequence, given those of `xs`. -/
def interleaveWith {α : Type} (x : α) (xs : List α) (rec : List α → List (List α)) :
    List α → List (List α)
  | [] => [x :: xs]
  | y :: ys => (rec (y :: ys)).map (x :: ·) ++ (interleaveWith x xs rec ys).map (y :: ·)

/-- All interleavings of two sequences: the merges that keep the order of each. -/
def interleavings {α : Type} : List α → List α → List (List α)
  | [], ys => [ys]
  | x :: xs, ys => interleaveWith x xs (interleavings xs) ys

/-! ## Recording what a collaborator is asked

The store and the pool are arguments of the code. To say how often and with
which arguments the code calls them, they are instantiated with a state that
records every call. -/

/-- A pool method that answers by `answer` and appends the statement and its
arguments to the record. -/
def recordingPool {β : Type} (answer : String → List Arg → β) :
    String → List Arg → List (String × List Arg) → β × List (String × List Arg) :=
  fun query args record => (answer query args, record ++ [(query, args)])

/-- A `WorklogsGetter` that answers by `answer` and appends its three arguments
to the record. -/
def recordingGetter (answer : Int → Time → Time → Except GoError (List Worklog)) :
    Int → Time → Time → List (Int × Time × Time) →
      Except GoError (List Worklog) × List (Int × Time × Time) :=
  fun userID startDate endDate record =>
    (answer userID startDate endDate, record ++ [(userID, startDate, endDate)])

/-! ## pkg/http-errors and handlers/worklog/get.go -/

/-- The struct `httperr.ErrResponse`; `ErrorText`, which is `err.Error()`, is
not kept. -/
structure ErrResponse where
  Err : GoError
  HTTPStatusCode : Nat
  StatusText : String
  deriving DecidableEq, Repr

/-- The function `httperr.ErrInvalidRequest` (`http.StatusBadRequest` is 400). -/
def ErrInvalidRequest (err : GoError) : ErrResponse :=
  { Err := err, HTTPStatusCode := 400, StatusText := "Invalid request." }

/-- The function `httperr.ErrInternal` (`http.StatusInternalServerError` is 500). -/
def ErrInternal (err : GoError) : ErrResponse :=
  { Err := err, HTTPStatusCode := 500, StatusText := "Internal server error." }

/-- The function `httperr.ErrConflict` (`http.StatusConflict` is 409). -/
def ErrConflict (err : GoError) : ErrResponse :=
  { Err := err, HTTPStatusCode := 409, StatusText := "Conflict." }

/-- What a handler writes: an error response through `render.Render`, the
worklogs through `render.JSON` with status 200 (the text formats of the
entries are not modelled), the bare status of `w.WriteHeader(http.StatusNoContent)`,
or the `CreateUserResponse` through `render.JSON` after
`render.Status(r, http.StatusCreated)`. -/
inductive Response where
  | error (e : ErrResponse)
  | json (worklogs : List Worklog)
  | noContent
  | created (UserID : Int)
  deriving DecidableEq, Repr

/-- The status code of the response: that of the `ErrResponse`, 200 for
`render.JSON` alone, 204 for `http.StatusNoContent`, 201 for `http.StatusCreated`. -/
def Response.status : Response → Nat
  | .error e => e.HTTPStatusCode
  | .json _ => 200
  | .noContent => 204
  | .created _ => 201

/-- The struct `WorklogsRequest`. -/
structure WorklogsRequest where
  StartDate : Time
  EndDate : Time
  deriving DecidableEq, Repr

/-- Go's `time.Time.Before`: the instant `t` is earlier than `u`. -/
def Time.Before (t u : Time) : Bool :=
  decide (t.sec < u.sec) || (decide (t.sec = u.sec) && decide (t.nsec < u.nsec))

/-- The conversion `int32(n)` of a Go `int`: the value modulo 2^32 in the range
of `int32`. -/
def toInt32 (n : Int) : Int := (n + 2 ^ 31) % 2 ^ 32 - 2 ^ 31

/-- The handler `worklog.Worklogs`. `userIDParam` is the outcome of
`strconv.Atoi(chi.URLParam(r, "userID"))`, `body` that of decoding the request
body, `worklogsGetter` the store's `Worklogs` with the state `σ` of the store. -/
def WorklogsHandler {σ : Type}
    (worklogsGetter : Int → Time → Time → σ → Except GoError (List Worklog) × σ)
    (userIDParam : Except GoError Int) (body : Except GoError WorklogsRequest) (s : σ) :
    Response × σ :=
  match userIDParam with
  | .error err => (.error (ErrInvalidRequest err), s)
  | .ok userID =>
    match body with
    | .error err => (.error (ErrInvalidRequest err), s)
    | .ok req =>
      if req.EndDate.Before req.StartDate then
        (.error (ErrInvalidRequest (.errorf "end date should be after start date")), s)
      else
        match worklogsGetter (toInt32 userID) req.StartDate req.EndDate s with
        | (.error err, s') => (.error (ErrInternal err), s')
        | (.ok worklogs, s') => (.json worklogs, s')

/-! ## handlers/worklog/finish.go, handlers/user/delete.go, handlers/user/create.go -/

/-- The handler `worklog.FinishWorklog`. `idParam` is the outcome of
`strconv.Atoi(chi.URLParam(r, "id"))`, `worklogFinisher` the store's
`FinishWorklog` with the state `σ` of the store. The test `err == repo.ErrAlreadyDone`
compares the error value itself, not the errors it wraps. -/
def FinishWorklogHandler {σ : Type} (worklogFinisher : Int → σ → Option GoError × σ)
    (idParam : Except GoError Int) (s : σ) : Response × σ :=
  match idParam with
  | .error err => (.error (ErrInvalidRequest err), s)
  | .ok worklogID =>
    match worklogFinisher (toInt32 worklogID) s with
    | (some err, s') =>
      if err = ErrAlreadyDone then (.error (ErrConflict err), s')
      else (.error (ErrInternal err), s')
    | (none, s') => (.noContent, s')

/-- The handler `user.DeleteUser`. `idParam` is the outcome of
`strconv.Atoi(idStr)`, `userDeleter` the store's `DeleteUser`. -/
def DeleteUserHandler {σ : Type} (userDeleter : Int → σ → Option GoError × σ)
    (idParam : Except GoError Int) (s : σ) : Response × σ :=
  match idParam with
  | .error _ => (.error (ErrInvalidRequest (.errorf "invalid user ID")), s)
  | .ok userId =>
    match userDeleter (toInt32 userId) s with
    | (some err, s') => (.error (ErrInternal err), s')
    | (none, s') => (.noContent, s')

/-- The variable `io.EOF`. -/
def ioEOF : GoError := .sentinel "EOF"

/-- The handler `user.CreateUser`. `body` is the outcome of
`render.DecodeJSON(r.Body, &req)` with the decoded `req.PassportNumber`,
`fetchPeopleInfo` the call of the external API with the port fixed,
`userCreator` the store's `CreateUser`. An index panic of `ParsePassportData`
leaves the handler without a response written by it. -/
def CreateUserHandler {σ : Type} (userCreator : User → σ → (Int × Option GoError) × σ)
    (fetchPeopleInfo : String → String → Except GoError People)
    (body : Except GoError String) (s : σ) : GoResult (Response × σ) :=
  match body with
  | .error err =>
    if errorsIs err ioEOF then
      .ret (.error (ErrInvalidRequest (.errorf "request body is empty")), s)
    else .ret (.error (ErrInvalidRequest err), s)
  | .ok passportNumber =>
    match ParsePassportData passportNumber with
    | .indexPanic i n => .indexPanic i n
    | .err msg => .ret (.error (ErrInvalidRequest (.errorf msg)), s)
    | .ret passport =>
      match fetchPeopleInfo passport.Serie passport.Number with
      | .error err => .ret (.error (ErrInternal err), s)
      | .ok people =>
        match userCreator { ID := 0, CreatedAt := { sec := 0, nsec := 0 },
                            UpdatedAt := { sec := 0, nsec := 0 },
                            Passport := passport, People := people } s with
        | ((_, some err), s') => .ret (.error (ErrInternal err), s')
        | ((userId, none), s') => .ret (.created userId, s')

/-! ## Sample store and calls -/

/-- A `rows.Scan` that fails on an open row, as the driver does, and reads a
finished row with the duration 0. -/
def sampleScan (row : WorklogRow) : Except GoError Worklog :=
  match row.finished_at with
  | none => .error scanNullTime
  | some f =>
    .ok { ID := row.id, UserID := row.user_id, Task := row.task, StartedAt := row.started_at,
          FinishedAt := f, Duration := 0 }

/-- A call at the second `sec` that meets no failure. -/
def sampleCall (sec : Int) : Call :=
  { now := { sec := sec, nsec := 0 }, fault := none, order := fun rows => rows,
    rowsErr := none, Scan := sampleScan }

/-- A store with one open worklog, of user 5. -/
def sampleStore : Store :=
  { worklogs := [{ id := 1, user_id := 5, task := "review", started_at := { sec := 50, nsec := 0 },
                   finished_at := none }],
    nextID := 2 }

/-! # Theorems -/

/-! ## ParsePassportData -/

theorem fieldsFrom_spaces (ws rest : List Char) (h : ∀ c ∈ ws, isSpace c = true) :
    fieldsFrom [] (ws ++ rest) = fieldsFrom [] rest := by
  induction ws with
  | nil => rfl
  | cons c cs ih =>
    have hc : isSpace c = true := h c (List.mem_cons_self _ _)
    have hcs : ∀ d ∈ cs, isSpace d = true := fun d hd => h d (List.mem_cons_of_mem _ hd)
    simp [fieldsFrom, hc, ih hcs]

theorem fieldsFrom_token (t cur rest : List Char) (h : ∀ c ∈ t, isSpace c = false) :
    fieldsFrom cur (t ++ rest) = fieldsFrom (cur ++ t) rest := by
  induction t generalizing cur with
  | nil => simp
  | cons c cs ih =>
    have hc : isSpace c = false := h c (List.mem_cons_self _ _)
    have hcs : ∀ d ∈ cs, isSpace d = false := fun d hd => h d (List.mem_cons_of_mem _ hd)
    simp [fieldsFrom, hc, ih _ hcs]

theorem fieldsFrom_close (cur ws rest : List Char) (hcur : cur ≠ []) (hws : ws ≠ [])
    (h : ∀ c ∈ ws, isSpace c = true) :
    fieldsFrom cur (ws ++ rest) = String.mk cur :: fieldsFrom [] rest := by
  cases ws with
  | nil => exact absurd rfl hws
  | cons c cs =>
    have hc : isSpace c = true := h c (List.mem_cons_self _ _)
    have hcs : ∀ d ∈ cs, isSpace d = true := fun d hd => h d (List.mem_cons_of_mem _ hd)
    simp [fieldsFrom, hc, hcur, fieldsFrom_spaces cs rest hcs]

theorem fieldsFrom_end (cur ws : List Char) (hcur : cur ≠ [])
    (h : ∀ c ∈ ws, isSpace c = true) :
    fieldsFrom cur ws = [String.mk cur] := by
  cases ws with
  | nil => simp [fieldsFrom, hcur]
  | cons c cs =>
    have := fieldsFrom_close cur (c :: cs) [] hcur (by simp) h
    simpa [fieldsFrom_spaces cs [] (fun d hd => h d (List.mem_cons_of_mem _ hd)), fieldsFrom]
      using this

/-- Two non-empty runs of non-space characters, separated by at least one space
and surrounded by any white space, split into exactly these two fields. -/
theorem Fields_two_tokens (w0 t1 w1 t2 w2 : List Char)
    (h0 : ∀ c ∈ w0, isSpace c = true) (h1 : ∀ c ∈ w1, isSpace c = true)
    (h2 : ∀ c ∈ w2, isSpace c = true) (hw1 : w1 ≠ [])
    (ht1 : ∀ c ∈ t1, isSpace c = false) (ht2 : ∀ c ∈ t2, isSpace c = false)
    (hn1 : t1 ≠ []) (hn2 : t2 ≠ []) :
    Fields (String.mk (w0 ++ (t1 ++ (w1 ++ (t2 ++ w2))))) = [String.mk t1, String.mk t2] := by
  simp only [Fields]
  rw [fieldsFrom_spaces w0 _ h0, fieldsFrom_token t1 [] _ ht1, List.nil_append,
    fieldsFrom_close t1 w1 _ hn1 hw1 h1, fieldsFrom_token t2 [] _ ht2, List.nil_append,
    fieldsFrom_end t2 w2 hn2 h2]

/-- C1 (the code departs from the claim): an input of two tokens whose second
token has 7 bytes, and an input of three tokens whose first token has 4 bytes,
are both accepted: `ParsePassportData` returns a passport and no error. -/
theorem parsePassport_accepts_wrong_shape :
    ParsePassportData "1234 5678901" = .ret { Serie := "1234", Number := "5678901" } ∧
    ParsePassportData "1234 567890 x" = .ret { Serie := "1234", Number := "567890" } := by
  decide

/-- C2 (the code departs from the claim): on the empty string, on an
all-whitespace string and on a single token, `ParsePassportData` aborts with an
index-out-of-range panic, at `parts[0]` or at `parts[1]`. -/
theorem parsePassport_panics :
    ParsePassportData "" = .indexPanic 0 0 ∧
    ParsePassportData " \t " = .indexPanic 0 0 ∧
    ParsePassportData "1234" = .indexPanic 1 1 ∧
    ParsePassportData "12345" = .indexPanic 1 1 := by
  decide

/-- C3: when the whitespace-split of the input is exactly two tokens `t1` of
length 4 and `t2` of length 6, `ParsePassportData` returns no error and the
passport with series `t1` and number `t2`. -/
theorem parsePassport_two_tokens (data t1 t2 : String)
    (hsplit : Fields data = [t1, t2]) (_h1 : len t1 = 4) (_h2 : len t2 = 6) :
    ParsePassportData data = .ret { Serie := t1, Number := t2 } := by
  simp [ParsePassportData, invalidFormatCond, hsplit, GoResult.bind, index]

/-- Witness of C3: `"1234 567890"` parses to series `"1234"` and number `"567890"`. -/
theorem parsePassport_two_tokens_witness :
    Fields "1234 567890" = ["1234", "567890"] ∧ len "1234" = 4 ∧ len "567890" = 6 ∧
    ParsePassportData "1234 567890" = .ret { Serie := "1234", Number := "567890" } :=
  ⟨by decide, by decide, by decide,
    parsePassport_two_tokens "1234 567890" "1234" "567890" (by decide) (by decide) (by decide)⟩

/-- C4, as claimed, fails: `"AB12 123456"` is not answered with an error. -/
theorem parsePassport_AB12_not_error :
    ¬ ∃ msg, ParsePassportData "AB12 123456" = .err msg := by
  have h : ParsePassportData "AB12 123456" = .ret { Serie := "AB12", Number := "123456" } := by
    decide
  rintro ⟨msg, hmsg⟩
  rw [h] at hmsg
  exact GoResult.noConfusion hmsg

/-- C4, amended: `"AB12 123456"` splits into two tokens of lengths 4 and 6, and
`ParsePassportData` returns no error and the passport with series `"AB12"` and
number `"123456"`. -/
theorem parsePassport_AB12 :
    Fields "AB12 123456" = ["AB12", "123456"] ∧ len "AB12" = 4 ∧ len "123456" = 6 ∧
    ParsePassportData "AB12 123456" = .ret { Serie := "AB12", Number := "123456" } := by
  decide

/-! ## Decimal digits -/

theorem digitChar_spec : ∀ m, m < 10 →
    (Nat.digitChar m).isDigit = true ∧ (Nat.digitChar m).toNat - 48 = m := by
  decide

theorem toDigitsCore_spec (fuel : Nat) : ∀ n ds, n < fuel →
    ∃ pre, Nat.toDigitsCore 10 fuel n ds = pre ++ ds ∧ (∀ c ∈ pre, c.isDigit = true) ∧
      digitsValue 0 pre = n := by
  induction fuel with
  | zero => intro n ds h; omega
  | succ fuel ih =>
    intro n ds h
    have hd := digitChar_spec (n % 10) (Nat.mod_lt _ (by decide))
    simp only [Nat.toDigitsCore]
    by_cases h0 : n / 10 = 0
    · refine ⟨[Nat.digitChar (n % 10)], by simp [h0], ?_, ?_⟩
      · intro c hc
        rw [List.mem_singleton.1 hc]; exact hd.1
      · simp only [digitsValue, List.foldl, hd.2]
        omega
    · obtain ⟨pre, hpre, hdig, hval⟩ := ih (n / 10) (Nat.digitChar (n % 10) :: ds) (by omega)
      refine ⟨pre ++ [Nat.digitChar (n % 10)], by simp [h0, hpre], ?_, ?_⟩
      · intro c hc
        rcases List.mem_append.1 hc with hc | hc
        · exact hdig c hc
        · rw [List.mem_singleton.1 hc]; exact hd.1
      · simp only [digitsValue] at hval
        simp only [digitsValue, List.foldl_append, List.foldl, hval, hd.2]
        omega

theorem fmtInt_spec (k : Nat) :
    (∀ c ∈ (fmtInt k).data, c.isDigit = true) ∧ digitsValue 0 (fmtInt k).data = k := by
  obtain ⟨pre, hpre, hdig, hval⟩ := toDigitsCore_spec (k + 1) k [] (Nat.lt_succ_self k)
  have hdata : (fmtInt k).data = pre := by
    show (Nat.toDigits 10 k) = pre
    simpa [Nat.toDigits] using hpre
  rw [hdata]
  exact ⟨hdig, hval⟩

/-! ## Reading back a rendered text -/

theorem scanClauses_text (p : List Char) : ∀ (acc rest : List Char), '$' ∉ p →
    scanClauses acc none (p ++ rest) = scanClauses (acc ++ p) none rest := by
  induction p with
  | nil => intro acc rest _; simp
  | cons c cs ih =>
    intro acc rest h
    have hc : c ≠ '$' := fun e => h (e ▸ List.mem_cons_self _ _)
    have hcs : '$' ∉ cs := fun e => h (List.mem_cons_of_mem _ e)
    simp [scanClauses, hc, ih _ _ hcs]

theorem scanClauses_digits (ds : List Char) : ∀ (acc : List Char) (n : Nat) (rest : List Char),
    (∀ c ∈ ds, c.isDigit = true) →
    scanClauses acc (some n) (ds ++ rest) = scanClauses acc (some (digitsValue n ds)) rest := by
  induction ds with
  | nil => intro acc n rest _; simp [digitsValue]
  | cons c cs ih =>
    intro acc n rest h
    have hc : c.isDigit = true := h c (List.mem_cons_self _ _)
    have hcs : ∀ d ∈ cs, d.isDigit = true := fun d hd => h d (List.mem_cons_of_mem _ hd)
    have step : scanClauses acc (some n) (c :: (cs ++ rest)) =
        scanClauses acc (some (n * 10 + (c.toNat - 48))) (cs ++ rest) := by
      simp [scanClauses, hc]
    rw [List.cons_append, step, ih _ _ _ hcs]
    rfl

theorem scanClauses_close (acc : List Char) (n : Nat) (rest : List Char)
    (h : rest = [] ∨ ∃ c cs, rest = c :: cs ∧ c.isDigit = false ∧ c ≠ '$') :
    scanClauses acc (some n) rest = (String.mk acc, n) :: scanClauses [] none rest := by
  rcases h with h | ⟨c, cs, h, hd, hc⟩
  · subst h; simp [scanClauses]
  · subst h; simp [scanClauses, hd, hc]

theorem GoodFragment.head {f : String} (h : GoodFragment f) :
    '$' ∉ f.data ∧ ∃ c cs, f.data = c :: cs ∧ c.isDigit = false := by
  refine ⟨h.1, ?_⟩
  have h2 := h.2
  cases hd : f.data with
  | nil => simp [hd] at h2
  | cons c cs => exact ⟨c, cs, rfl, by simpa [hd] using h2⟩

theorem renderFrom_head (fs : List String) (k : Nat) (h : ∀ f ∈ fs, GoodFragment f) :
    (renderFrom k fs).data = [] ∨
      ∃ c cs, (renderFrom k fs).data = c :: cs ∧ c.isDigit = false ∧ c ≠ '$' := by
  cases fs with
  | nil => left; rfl
  | cons f fs =>
    right
    obtain ⟨hno, c, cs, hf, hd⟩ := (h f (List.mem_cons_self _ _)).head
    refine ⟨c, cs ++ (("$" ++ fmtInt k).data ++ (renderFrom (k + 1) fs).data), ?_, hd, ?_⟩
    · simp [renderFrom, String.data_append, hf]
    · intro e
      apply hno
      rw [hf, e]
      exact List.mem_cons_self _ _

theorem clauses_renderFrom (fs : List String) : ∀ (k : Nat), (∀ f ∈ fs, GoodFragment f) →
    clauses (renderFrom k fs) = numberFrom k fs := by
  induction fs with
  | nil => intro k _; rfl
  | cons f fs ih =>
    intro k h
    have hf := h f (List.mem_cons_self _ _)
    have hfs : ∀ g ∈ fs, GoodFragment g := fun g hg => h g (List.mem_cons_of_mem _ hg)
    have hk := fmtInt_spec k
    have hdata : (renderFrom k (f :: fs)).data =
        f.data ++ ('$' :: ((fmtInt k).data ++ (renderFrom (k + 1) fs).data)) := by
      simp [renderFrom, String.data_append]
    simp only [clauses] at ih ⊢
    rw [hdata, scanClauses_text _ _ _ hf.1, List.nil_append]
    simp only [scanClauses, if_true]
    rw [scanClauses_digits _ _ _ _ hk.1, hk.2,
      scanClauses_close _ _ _ (renderFrom_head fs (k + 1) hfs), ih (k + 1) hfs]
    rfl

/-! ## The listing query as a rendered sequence of pairs -/

theorem renderFrom_append (a b : List String) : ∀ k,
    renderFrom k (a ++ b) = renderFrom k a ++ renderFrom (k + a.length) b := by
  induction a with
  | nil => intro k; simp [renderFrom]
  | cons f fs ih =>
    intro k
    have e : k + 1 + fs.length = k + (fs.length + 1) := by omega
    show renderFrom k (f :: (fs ++ b)) = _
    simp only [renderFrom, ih, List.length_cons, String.append_assoc, e]

theorem numberFrom_append (a b : List String) : ∀ k,
    numberFrom k (a ++ b) = numberFrom k a ++ numberFrom (k + a.length) b := by
  induction a with
  | nil => intro k; simp [numberFrom]
  | cons f fs ih =>
    intro k
    have e : k + 1 + fs.length = k + (fs.length + 1) := by omega
    show numberFrom k (f :: (fs ++ b)) = _
    simp only [numberFrom, ih, List.length_cons, e, List.cons_append]

theorem numberFrom_fst (fs : List String) : ∀ k, (numberFrom k fs).map Prod.fst = fs := by
  induction fs with
  | nil => intro k; rfl
  | cons f fs ih => intro k; simp [numberFrom, ih]

theorem numberFrom_snd (fs : List String) : ∀ k,
    (numberFrom k fs).map Prod.snd = List.range' k fs.length := by
  induction fs with
  | nil => intro k; rfl
  | cons f fs ih => intro k; simp [numberFrom, ih, List.range'_succ]

theorem numberFrom_length (fs : List String) (k : Nat) : (numberFrom k fs).length = fs.length := by
  have := congrArg List.length (numberFrom_fst fs k)
  simpa using this

theorem emit_nil (b : Builder) : b.emit [] = b := by
  simp [Builder.emit, renderFrom]

theorem emit_emit (b : Builder) (x y : List (String × Arg)) :
    (b.emit x).emit y = b.emit (x ++ y) := by
  simp [Builder.emit, renderFrom_append, String.append_assoc, Nat.add_assoc]

theorem emit_one (b : Builder) (f : String) (a : Arg) :
    b.emit [(f, a)] =
      { text := b.text ++ (f ++ ("$" ++ fmtInt b.argIndex))
        args := b.args ++ [a]
        argIndex := b.argIndex + 1 } := by
  simp [Builder.emit, renderFrom]

theorem filterStep_emit (b : Builder) (field : String) (filter : FilterBy) :
    filterStep b field (mapGet (stringFields filter) field) =
      b.emit (stringBindings [field] filter) := by
  by_cases hv : mapGet (stringFields filter) field = ""
  · simp [filterStep, stringBindings, hv, emit_nil]
  · simp [filterStep, stringBindings, hv, emit_one, eqFragment, String.append_assoc]
    rfl

theorem stringBindings_cons (field : String) (rest : List String) (filter : FilterBy) :
    stringBindings (field :: rest) filter =
      stringBindings [field] filter ++ stringBindings rest filter := by
  simp only [stringBindings]
  rw [← List.filterMap_append]
  rfl

theorem loop_emit (filter : FilterBy) (order : List String) : ∀ b : Builder,
    order.foldl (fun b field => filterStep b field (mapGet (stringFields filter) field)) b =
      b.emit (stringBindings order filter) := by
  induction order with
  | nil => intro b; simp [stringBindings, emit_nil]
  | cons field rest ih =>
    intro b
    rw [List.foldl_cons, filterStep_emit, ih, emit_emit, ← stringBindings_cons]

/-- The code and the builder of the specification produce the same text and the
same arguments. -/
theorem BuildGetUsersQuery_eq (order : List String) (filter : FilterBy) (settings : Pagination) :
    BuildGetUsersQuery order filter settings =
      (baseQuery ++ renderFrom 1 ((bindings order filter settings).map Prod.fst),
        (bindings order filter settings).map Prod.snd) := by
  have h : BuildGetUsersQuery order filter settings =
      ((Builder.emit { text := baseQuery, args := [], argIndex := 1 }
          (bindings order filter settings)).text,
        (Builder.emit { text := baseQuery, args := [], argIndex := 1 }
          (bindings order filter settings)).args) := by
    simp only [BuildGetUsersQuery, loop_emit, bindings, timeBindings, limitBinding,
      offsetBinding, ← emit_emit]
    split_ifs <;> simp only [emit_nil, emit_one, String.append_assoc] <;> rfl
  rw [h]
  simp [Builder.emit]

/-! ## Facts about the fragments of a listing query -/

theorem goodFragment_keys : ∀ k ∈ stringFieldKeys, GoodFragment (eqFragment k) := by
  decide

theorem eqFragment_ne_other : ∀ k ∈ stringFieldKeys,
    eqFragment k ≠ " AND created_at > " ∧ eqFragment k ≠ " AND created_at < " ∧
    eqFragment k ≠ " LIMIT " ∧ eqFragment k ≠ " OFFSET " := by
  decide

theorem eqFragment_inj {a b : String} (h : eqFragment a = eqFragment b) : a = b := by
  have h2 := congrArg String.data h
  simp only [eqFragment, String.data_append] at h2
  have h3 := List.append_cancel_left (List.append_cancel_right h2)
  exact String.ext h3

theorem mem_keys_of_mapGet (filter : FilterBy) (field : String)
    (h : mapGet (stringFields filter) field ≠ "") : field ∈ stringFieldKeys := by
  by_contra hk
  simp only [stringFieldKeys, List.mem_cons, List.mem_singleton, not_or, List.not_mem_nil,
    or_false] at hk
  obtain ⟨h1, h2, h3, h4, h5, h6⟩ := hk
  apply h
  simp [mapGet, stringFields, List.lookup, beq_false_of_ne h1, beq_false_of_ne h2,
    beq_false_of_ne h3, beq_false_of_ne h4, beq_false_of_ne h5, beq_false_of_ne h6]

theorem mem_stringBindings {order : List String} {filter : FilterBy} {b : String × Arg} :
    b ∈ stringBindings order filter ↔
      ∃ field ∈ order, mapGet (stringFields filter) field ≠ "" ∧
        b = (eqFragment field, Arg.string (mapGet (stringFields filter) field)) := by
  simp only [stringBindings, List.mem_filterMap]
  constructor
  · rintro ⟨field, hf, hb⟩
    by_cases hv : mapGet (stringFields filter) field = ""
    · simp [hv] at hb
    · refine ⟨field, hf, hv, ?_⟩
      simpa [hv, eq_comm] using hb
  · rintro ⟨field, hf, hv, rfl⟩
    exact ⟨field, hf, by simp [hv]⟩

theorem bindings_good (order : List String) (filter : FilterBy) (settings : Pagination) :
    ∀ b ∈ bindings order filter settings, GoodFragment b.1 := by
  intro b hb
  simp only [bindings, timeBindings, limitBinding, offsetBinding, List.mem_append] at hb
  rcases hb with hb | (hb | hb) | hb | hb
  · obtain ⟨field, _, hv, rfl⟩ := mem_stringBindings.1 hb
    exact goodFragment_keys field (mem_keys_of_mapGet filter field hv)
  · split_ifs at hb
    · rw [List.mem_singleton.1 hb]; exact (by decide : GoodFragment " AND created_at > ")
    · simp at hb
  · split_ifs at hb
    · rw [List.mem_singleton.1 hb]; exact (by decide : GoodFragment " AND created_at < ")
    · simp at hb
  · split_ifs at hb
    · rw [List.mem_singleton.1 hb]; exact (by decide : GoodFragment " LIMIT ")
    · simp at hb
  · split_ifs at hb
    · rw [List.mem_singleton.1 hb]; exact (by decide : GoodFragment " OFFSET ")
    · simp at hb

theorem clauses_bindings (order : List String) (filter : FilterBy) (settings : Pagination) :
    clauses (renderFrom 1 ((bindings order filter settings).map Prod.fst)) =
      numberFrom 1 ((bindings order filter settings).map Prod.fst) := by
  apply clauses_renderFrom
  intro f hf
  obtain ⟨b, hb, rfl⟩ := List.mem_map.1 hf
  exact bindings_good order filter settings b hb

theorem scanClauses_snd (xs : List Char) : ∀ (st : Option Nat) (acc acc2 : List Char),
    (scanClauses acc st xs).map Prod.snd = (scanClauses acc2 st xs).map Prod.snd := by
  induction xs with
  | nil => intro st acc acc2; cases st <;> simp [scanClauses]
  | cons c cs ih =>
    intro st acc acc2
    cases st with
    | none =>
      by_cases hc : c = '$'
      · simp only [scanClauses, hc, if_true]; exact ih _ _ _
      · simp only [scanClauses, hc, if_false]; exact ih _ _ _
    | some n =>
      by_cases hd : c.isDigit = true
      · simp only [scanClauses, hd, if_true]; exact ih _ _ _
      · by_cases hc : c = '$'
        · simp [scanClauses, hd, hc]
        · simp [scanClauses, hd, hc]

theorem placeholders_base (tail : String) :
    placeholders (baseQuery ++ tail) = placeholders tail := by
  simp only [placeholders, clauses, String.data_append]
  rw [scanClauses_text baseQuery.data [] tail.data (by decide)]
  exact scanClauses_snd _ _ _ _

theorem mapGet_keys (filter : FilterBy) :
    mapGet (stringFields filter) "surname" = filter.Surname ∧
    mapGet (stringFields filter) "name" = filter.Name ∧
    mapGet (stringFields filter) "patronymic" = filter.Patronymic ∧
    mapGet (stringFields filter) "address" = filter.Address ∧
    mapGet (stringFields filter) "passport_serie" = filter.PassportSerie ∧
    mapGet (stringFields filter) "passport_number" = filter.PassportNumber :=
  ⟨rfl, rfl, rfl, rfl, rfl, rfl⟩

theorem eqFragment_eq_iff (a b : String) : eqFragment a = eqFragment b ↔ a = b :=
  ⟨eqFragment_inj, fun h => h ▸ rfl⟩

theorem boundValue_eqFragment (filter : FilterBy) (settings : Pagination) :
    ∀ k ∈ stringFieldKeys, boundValue filter settings (eqFragment k) =
      some (Arg.string (mapGet (stringFields filter) k)) := by
  intro k hk
  obtain ⟨h1, h2, h3, h4⟩ := eqFragment_ne_other k hk
  obtain ⟨m1, m2, m3, m4, m5, m6⟩ := mapGet_keys filter
  simp only [boundValue, h1, h2, h3, h4, if_false]
  simp only [stringFieldKeys, List.mem_cons, List.mem_singleton, List.not_mem_nil,
    or_false] at hk
  rcases hk with rfl | rfl | rfl | rfl | rfl | rfl
  · rw [m1]; simp [stringFields, List.findSome?, eqFragment_eq_iff]
  · rw [m2]; simp [stringFields, List.findSome?, eqFragment_eq_iff]
  · rw [m3]; simp [stringFields, List.findSome?, eqFragment_eq_iff]
  · rw [m4]; simp [stringFields, List.findSome?, eqFragment_eq_iff]
  · rw [m5]; simp [stringFields, List.findSome?, eqFragment_eq_iff]
  · rw [m6]; simp [stringFields, List.findSome?, eqFragment_eq_iff]

theorem boundValue_bindings (order : List String) (filter : FilterBy) (settings : Pagination) :
    ∀ b ∈ bindings order filter settings, boundValue filter settings b.1 = some b.2 := by
  intro b hb
  simp only [bindings, timeBindings, limitBinding, offsetBinding, List.mem_append] at hb
  rcases hb with hb | (hb | hb) | hb | hb
  · obtain ⟨field, _, hv, rfl⟩ := mem_stringBindings.1 hb
    exact boundValue_eqFragment filter settings field (mem_keys_of_mapGet filter field hv)
  · split_ifs at hb
    · rw [List.mem_singleton.1 hb]; rfl
    · simp at hb
  · split_ifs at hb
    · rw [List.mem_singleton.1 hb]; rfl
    · simp at hb
  · split_ifs at hb
    · rw [List.mem_singleton.1 hb]; rfl
    · simp at hb
  · split_ifs at hb
    · rw [List.mem_singleton.1 hb]; rfl
    · simp at hb

theorem numberFrom_bound (g : String → Option Arg) (bs : List (String × Arg)) : ∀ k,
    (∀ b ∈ bs, g b.1 = some b.2) →
    (numberFrom k (bs.map Prod.fst)).map (fun cl => (cl.2, g cl.1)) =
      (List.enumFrom k (bs.map Prod.snd)).map (fun p => (p.1, some p.2)) := by
  induction bs with
  | nil => intro k _; rfl
  | cons b bs ih =>
    intro k h
    have hb := h b (List.mem_cons_self _ _)
    have hbs : ∀ c ∈ bs, g c.1 = some c.2 := fun c hc => h c (List.mem_cons_of_mem _ hc)
    simp [numberFrom, List.enumFrom, hb, ih (k + 1) hbs]

/-! ## Selecting the clauses of one fragment -/

theorem mem_numberFrom (fs : List String) : ∀ (k : Nat) (g : String) (i : Nat),
    (g, i) ∈ numberFrom k fs → g ∈ fs ∧ k ≤ i := by
  induction fs with
  | nil => intro k g i h; simp [numberFrom] at h
  | cons f fs ih =>
    intro k g i h
    simp only [numberFrom, List.mem_cons, Prod.mk.injEq] at h
    rcases h with ⟨rfl, rfl⟩ | h
    · exact ⟨List.mem_cons_self _ _, le_refl _⟩
    · obtain ⟨h1, h2⟩ := ih _ _ _ h
      exact ⟨List.mem_cons_of_mem _ h1, by omega⟩

theorem filter_numberFrom_none (f : String) (fs : List String) (k : Nat) (h : f ∉ fs) :
    (numberFrom k fs).filter (fun cl => decide (cl.1 = f)) = [] := by
  apply List.filter_eq_nil_iff.2
  rintro ⟨g, i⟩ hmem
  have := (mem_numberFrom fs k g i hmem).1
  simp only [decide_eq_true_eq]
  rintro rfl
  exact h this

theorem filter_numberFrom_one (f : String) (fs : List String) : ∀ k, fs.count f = 1 →
    ∃ i, (numberFrom k fs).filter (fun cl => decide (cl.1 = f)) = [(f, i)] ∧ k ≤ i ∧
      fs[i - k]? = some f := by
  induction fs with
  | nil => intro k h; simp at h
  | cons g gs ih =>
    intro k h
    by_cases hg : g = f
    · subst hg
      have h0 : g ∉ gs := by
        rw [List.count_cons_self] at h
        exact List.count_eq_zero.1 (by omega)
      exact ⟨k, by simp [numberFrom, filter_numberFrom_none g gs (k + 1) h0], le_refl _, by simp⟩
    · have h1 : gs.count f = 1 := by
        rw [List.count_cons_of_ne (Ne.symm hg)] at h
        exact h
      obtain ⟨i, hi, hk, hget⟩ := ih (k + 1) h1
      refine ⟨i, by simp [numberFrom, hg, hi], by omega, ?_⟩
      have e : i - k = (i - (k + 1)) + 1 := by omega
      rw [e, List.getElem?_cons_succ]
      exact hget

theorem stringBindings_fst (order : List String) (filter : FilterBy) :
    (stringBindings order filter).map Prod.fst =
      (order.filter fun k => decide (mapGet (stringFields filter) k ≠ "")).map eqFragment := by
  induction order with
  | nil => rfl
  | cons field rest ih =>
    rw [stringBindings_cons, List.map_append, ih]
    by_cases hv : mapGet (stringFields filter) field = ""
    · simp [stringBindings, hv]
    · simp [stringBindings, hv]

theorem mapGet_of_mem (filter : FilterBy) (col value : String)
    (h : (col, value) ∈ stringFields filter) :
    col ∈ stringFieldKeys ∧ mapGet (stringFields filter) col = value := by
  obtain ⟨m1, m2, m3, m4, m5, m6⟩ := mapGet_keys filter
  simp only [stringFields, List.mem_cons, List.mem_singleton, List.not_mem_nil, or_false,
    Prod.mk.injEq] at h
  rcases h with ⟨rfl, rfl⟩ | ⟨rfl, rfl⟩ | ⟨rfl, rfl⟩ | ⟨rfl, rfl⟩ | ⟨rfl, rfl⟩ | ⟨rfl, rfl⟩
  · exact ⟨by decide, m1⟩
  · exact ⟨by decide, m2⟩
  · exact ⟨by decide, m3⟩
  · exact ⟨by decide, m4⟩
  · exact ⟨by decide, m5⟩
  · exact ⟨by decide, m6⟩

theorem other_fst_ne_eqFragment (filter : FilterBy) (settings : Pagination) (col : String)
    (hcol : col ∈ stringFieldKeys) :
    eqFragment col ∉
      (timeBindings filter ++ (limitBinding settings ++ offsetBinding settings)).map Prod.fst := by
  obtain ⟨h1, h2, h3, h4⟩ := eqFragment_ne_other col hcol
  simp only [timeBindings, limitBinding, offsetBinding]
  split_ifs <;> simp [h1, h2, h3, h4]

/-- The fragments of a listing query: the equality fragments of the non-empty
string fields in visiting order, then those of the timestamps and the page. -/
theorem bindings_fst (order : List String) (filter : FilterBy) (settings : Pagination) :
    (bindings order filter settings).map Prod.fst =
      (order.filter fun k => decide (mapGet (stringFields filter) k ≠ "")).map eqFragment ++
      (timeBindings filter ++ (limitBinding settings ++ offsetBinding settings)).map Prod.fst := by
  rw [bindings, List.map_append, stringBindings_fst]

theorem count_eqFragment (order : List String) (filter : FilterBy) (settings : Pagination)
    (horder : order.Perm stringFieldKeys) (col : String) (hcol : col ∈ stringFieldKeys) :
    ((bindings order filter settings).map Prod.fst).count (eqFragment col) =
      if mapGet (stringFields filter) col = "" then 0 else 1 := by
  have hnodup : order.Nodup := horder.nodup_iff.2 (by decide)
  have hmem : col ∈ order := horder.mem_iff.2 hcol
  rw [bindings_fst, List.count_append,
    List.count_eq_zero.2 (other_fst_ne_eqFragment filter settings col hcol), Nat.add_zero,
    List.count_map_of_injective _ eqFragment (fun a b => eqFragment_inj)]
  split_ifs with hv
  · apply List.count_eq_zero.2
    simp [hv]
  · apply List.count_eq_one_of_mem (hnodup.filter _)
    simp [hmem, hv]

/-- The clause of a fragment that occurs once among the fragments of a listing
query, and the argument at its index. -/
theorem clause_of_count_one (order : List String) (filter : FilterBy) (settings : Pagination)
    (f : String) (a : Arg)
    (hcount : ((bindings order filter settings).map Prod.fst).count f = 1)
    (hval : boundValue filter settings f = some a) :
    ∃ i, (clauses (renderFrom 1 ((bindings order filter settings).map Prod.fst))).filter
        (fun cl => decide (cl.1 = f)) = [(f, i)] ∧ 1 ≤ i ∧
      ((bindings order filter settings).map Prod.snd)[i - 1]? = some a := by
  obtain ⟨i, hi, hk, hget⟩ := filter_numberFrom_one f _ 1 hcount
  refine ⟨i, by rw [clauses_bindings]; exact hi, hk, ?_⟩
  rw [List.getElem?_map] at hget ⊢
  cases hb : (bindings order filter settings)[i - 1]? with
  | none => simp [hb] at hget
  | some b =>
    have hmem : b ∈ bindings order filter settings := List.getElem?_mem hb
    have h1 := boundValue_bindings order filter settings b hmem
    simp only [hb, Option.map_some', Option.some.injEq] at hget
    rw [hget, hval] at h1
    simp only [Option.map_some', Option.some.injEq]
    exact (Option.some.inj h1).symm

/-! ## BuildGetUsersQuery: the claims -/

/-- C5: for every order in which the loop visits the string fields, every
FilterBy and every Pagination, the placeholders of the query text are, from left
to right, `$1, ..., $n` with `n` the length of the argument list; and the text is
the fixed head followed by a tail in which the fragment closed by `$i` constrains
exactly the `i`-th argument. -/
theorem getUsers_placeholders_agree (order : List String) (filter : FilterBy)
    (settings : Pagination) :
    placeholders (BuildGetUsersQuery order filter settings).1 =
        List.range' 1 (BuildGetUsersQuery order filter settings).2.length ∧
    ∃ tail, (BuildGetUsersQuery order filter settings).1 = baseQuery ++ tail ∧
      (clauses tail).map (fun cl => (cl.2, boundValue filter settings cl.1)) =
        (List.enumFrom 1 (BuildGetUsersQuery order filter settings).2).map
          (fun p => (p.1, some p.2)) := by
  rw [BuildGetUsersQuery_eq]
  refine ⟨?_, renderFrom 1 ((bindings order filter settings).map Prod.fst), rfl, ?_⟩
  · rw [placeholders_base]
    simp only [placeholders]
    rw [clauses_bindings, numberFrom_snd]
    simp
  · simp only []
    rw [clauses_bindings]
    exact numberFrom_bound _ _ 1 (boundValue_bindings order filter settings)

theorem stringBindings_empty (order : List String) (filter : FilterBy)
    (h : ∀ e ∈ stringFields filter, e.2 = "") : stringBindings order filter = [] := by
  apply List.eq_nil_iff_forall_not_mem.2
  intro b hb
  obtain ⟨field, _, hv, _⟩ := mem_stringBindings.1 hb
  have hk := mem_keys_of_mapGet filter field hv
  obtain ⟨m1, m2, m3, m4, m5, m6⟩ := mapGet_keys filter
  simp only [stringFields, List.mem_cons, List.mem_singleton, List.not_mem_nil, or_false,
    forall_eq_or_imp, forall_eq] at h
  obtain ⟨e1, e2, e3, e4, e5, e6⟩ := h
  simp only [stringFieldKeys, List.mem_cons, List.mem_singleton, List.not_mem_nil,
    or_false] at hk
  rcases hk with rfl | rfl | rfl | rfl | rfl | rfl
  · exact hv (m1.trans e1)
  · exact hv (m2.trans e2)
  · exact hv (m3.trans e3)
  · exact hv (m4.trans e4)
  · exact hv (m5.trans e5)
  · exact hv (m6.trans e6)

/-- C9: when every string field of the filter is empty, both timestamps are zero
and neither `Limit` nor `Offset` is positive, `BuildGetUsersQuery` returns, for
every visiting order, exactly the text `SELECT * FROM users WHERE 1=1` and an
empty argument list. -/
theorem getUsers_empty_filter (order : List String) (filter : FilterBy) (settings : Pagination)
    (hstr : ∀ e ∈ stringFields filter, e.2 = "")
    (hafter : filter.CreatedAfter.IsZero = true) (hbefore : filter.CreatedBefore.IsZero = true)
    (hlimit : settings.Limit ≤ 0) (hoffset : settings.Offset ≤ 0) :
    BuildGetUsersQuery order filter settings = ("SELECT * FROM users WHERE 1=1", []) := by
  have hb : bindings order filter settings = [] := by
    simp [bindings, stringBindings_empty order filter hstr, timeBindings, limitBinding,
      offsetBinding, hafter, hbefore, not_lt.2 hlimit, not_lt.2 hoffset]
  rw [BuildGetUsersQuery_eq, hb]
  rfl

/-- Witness of C9: the zero FilterBy with `Limit = 0` and `Offset = -3`, the keys
visited in source order. -/
theorem getUsers_empty_filter_witness :
    BuildGetUsersQuery stringFieldKeys
        { Name := "", Surname := "", Patronymic := "", Address := "",
          CreatedAfter := ⟨0, 0⟩, CreatedBefore := ⟨0, 0⟩,
          PassportSerie := "", PassportNumber := "" }
        { Limit := 0, Offset := -3 } =
      ("SELECT * FROM users WHERE 1=1", []) :=
  getUsers_empty_filter _ _ _ (by decide) (by decide) (by decide) (by decide) (by decide)

theorem args_length_clauses (order : List String) (filter : FilterBy) (settings : Pagination) :
    ((bindings order filter settings).map Prod.snd).length =
      (clauses (renderFrom 1 ((bindings order filter settings).map Prod.fst))).length := by
  rw [clauses_bindings, numberFrom_length]
  simp

theorem mem_bindings_string (order : List String) (filter : FilterBy) (settings : Pagination)
    (v : String) (h : Arg.string v ∈ (bindings order filter settings).map Prod.snd) : v ≠ "" := by
  obtain ⟨b, hb, hbv⟩ := List.mem_map.1 h
  simp only [bindings, timeBindings, limitBinding, offsetBinding, List.mem_append] at hb
  rcases hb with hb | (hb | hb) | hb | hb
  · obtain ⟨field, _, hv, rfl⟩ := mem_stringBindings.1 hb
    simp only [Arg.string.injEq] at hbv
    exact hbv ▸ hv
  all_goals
    split_ifs at hb
    · rw [List.mem_singleton.1 hb] at hbv; simp at hbv
    · simp at hb

theorem mem_bindings_time (order : List String) (filter : FilterBy) (settings : Pagination)
    (t : Time) (h : Arg.time t ∈ (bindings order filter settings).map Prod.snd) :
    t.IsZero = false := by
  obtain ⟨b, hb, hbv⟩ := List.mem_map.1 h
  simp only [bindings, timeBindings, limitBinding, offsetBinding, List.mem_append] at hb
  rcases hb with hb | (hb | hb) | hb | hb
  · obtain ⟨field, _, hv, rfl⟩ := mem_stringBindings.1 hb
    simp at hbv
  · split_ifs at hb with hz
    · rw [List.mem_singleton.1 hb] at hbv
      simp only [Arg.time.injEq] at hbv
      simpa [hbv] using hz
    · simp at hb
  · split_ifs at hb with hz
    · rw [List.mem_singleton.1 hb] at hbv
      simp only [Arg.time.injEq] at hbv
      simpa [hbv] using hz
    · simp at hb
  all_goals
    split_ifs at hb
    · rw [List.mem_singleton.1 hb] at hbv; simp at hbv
    · simp at hb

/-- C6: for every permutation `order` of the six keys, every FilterBy and every
entry `(col, value)` of the map `stringFields` (surname: Surname, name: Name,
patronymic: Patronymic, address: Address, passport_serie: PassportSerie,
passport_number: PassportNumber): the query is the fixed head followed by a
tail, every argument belongs to one clause of the tail, and
* when `value` is not empty, exactly one clause of the tail has the fragment
  ` AND <col> = ` and the argument at the index of its placeholder is `value`;
* when `value` is empty, no clause of the tail has that fragment and the
  argument list does not hold `value`. -/
theorem getUsers_string_field (order : List String) (filter : FilterBy) (settings : Pagination)
    (horder : order.Perm stringFieldKeys) (col value : String)
    (hmem : (col, value) ∈ stringFields filter) :
    ∃ tail, (BuildGetUsersQuery order filter settings).1 = baseQuery ++ tail ∧
      (BuildGetUsersQuery order filter settings).2.length = (clauses tail).length ∧
      (value ≠ "" → ∃ i,
        (clauses tail).filter (fun cl => decide (cl.1 = eqFragment col)) =
          [(eqFragment col, i)] ∧ 1 ≤ i ∧
        (BuildGetUsersQuery order filter settings).2[i - 1]? = some (Arg.string value)) ∧
      (value = "" →
        (clauses tail).filter (fun cl => decide (cl.1 = eqFragment col)) = [] ∧
        Arg.string value ∉ (BuildGetUsersQuery order filter settings).2) := by
  obtain ⟨hcol, hget⟩ := mapGet_of_mem filter col value hmem
  have hcount := count_eqFragment order filter settings horder col hcol
  rw [hget] at hcount
  rw [BuildGetUsersQuery_eq]
  refine ⟨renderFrom 1 ((bindings order filter settings).map Prod.fst), rfl,
    args_length_clauses order filter settings, ?_, ?_⟩
  · intro hv
    rw [if_neg hv] at hcount
    have hval := boundValue_eqFragment filter settings col hcol
    rw [hget] at hval
    exact clause_of_count_one order filter settings _ _ hcount hval
  · intro hv
    rw [if_pos hv] at hcount
    refine ⟨?_, fun h => mem_bindings_string order filter settings value h hv⟩
    rw [clauses_bindings]
    exact filter_numberFrom_none _ _ _ (List.count_eq_zero.1 hcount)

/-- Witness of C6: the keys visited in reverse source order, the sample filter
and its entry `("name", "Ann")`. -/
theorem getUsers_string_field_witness :
    ∃ tail, (BuildGetUsersQuery stringFieldKeys.reverse sampleFilter samplePage).1 =
        baseQuery ++ tail ∧
      (BuildGetUsersQuery stringFieldKeys.reverse sampleFilter samplePage).2.length =
        (clauses tail).length ∧
      ("Ann" ≠ "" → ∃ i,
        (clauses tail).filter (fun cl => decide (cl.1 = eqFragment "name")) =
          [(eqFragment "name", i)] ∧ 1 ≤ i ∧
        (BuildGetUsersQuery stringFieldKeys.reverse sampleFilter samplePage).2[i - 1]? =
          some (Arg.string "Ann")) ∧
      ("Ann" = "" →
        (clauses tail).filter (fun cl => decide (cl.1 = eqFragment "name")) = [] ∧
        Arg.string "Ann" ∉ (BuildGetUsersQuery stringFieldKeys.reverse sampleFilter samplePage).2) :=
  getUsers_string_field stringFieldKeys.reverse sampleFilter samplePage (List.reverse_perm _)
    "name" "Ann" (by decide)

theorem time_fragments_not_string (order : List String) (filter : FilterBy) :
    " AND created_at > " ∉ (stringBindings order filter).map Prod.fst ∧
    " AND created_at < " ∉ (stringBindings order filter).map Prod.fst ∧
    " LIMIT " ∉ (stringBindings order filter).map Prod.fst ∧
    " OFFSET " ∉ (stringBindings order filter).map Prod.fst := by
  have key : ∀ f ∈ (stringBindings order filter).map Prod.fst,
      ∃ k ∈ stringFieldKeys, f = eqFragment k := by
    intro f hf
    obtain ⟨b, hb, rfl⟩ := List.mem_map.1 hf
    obtain ⟨field, _, hv, rfl⟩ := mem_stringBindings.1 hb
    exact ⟨field, mem_keys_of_mapGet filter field hv, rfl⟩
  refine ⟨?_, ?_, ?_, ?_⟩ <;> intro h <;> obtain ⟨k, hk, e⟩ := key _ h
  · exact (eqFragment_ne_other k hk).1 e.symm
  · exact (eqFragment_ne_other k hk).2.1 e.symm
  · exact (eqFragment_ne_other k hk).2.2.1 e.symm
  · exact (eqFragment_ne_other k hk).2.2.2 e.symm

/-- The clauses of the tail of a listing query: those of the string fields, then
those of the timestamps and the page, numbered on. -/
theorem clauses_split (order : List String) (filter : FilterBy) (settings : Pagination) :
    clauses (renderFrom 1 ((bindings order filter settings).map Prod.fst)) =
      numberFrom 1 ((stringBindings order filter).map Prod.fst) ++
      numberFrom (1 + (stringBindings order filter).length)
        ((timeBindings filter ++ (limitBinding settings ++ offsetBinding settings)).map
          Prod.fst) := by
  rw [clauses_bindings, bindings, List.map_append, numberFrom_append, List.length_map]

theorem count_after (order : List String) (filter : FilterBy) (settings : Pagination) :
    ((bindings order filter settings).map Prod.fst).count " AND created_at > " =
      if filter.CreatedAfter.IsZero then 0 else 1 := by
  obtain ⟨h1, _, _, _⟩ := time_fragments_not_string order filter
  rw [bindings, List.map_append, List.count_append, List.count_eq_zero.2 h1]
  simp only [timeBindings, limitBinding, offsetBinding]
  split_ifs <;> simp_all

theorem count_before (order : List String) (filter : FilterBy) (settings : Pagination) :
    ((bindings order filter settings).map Prod.fst).count " AND created_at < " =
      if filter.CreatedBefore.IsZero then 0 else 1 := by
  obtain ⟨_, h2, _, _⟩ := time_fragments_not_string order filter
  rw [bindings, List.map_append, List.count_append, List.count_eq_zero.2 h2]
  simp only [timeBindings, limitBinding, offsetBinding]
  split_ifs <;> simp_all

theorem after_before_order (order : List String) (filter : FilterBy) (settings : Pagination)
    (i j : Nat)
    (hi : (" AND created_at > ", i) ∈
      clauses (renderFrom 1 ((bindings order filter settings).map Prod.fst)))
    (hj : (" AND created_at < ", j) ∈
      clauses (renderFrom 1 ((bindings order filter settings).map Prod.fst))) : i < j := by
  obtain ⟨h1, h2, _, _⟩ := time_fragments_not_string order filter
  rw [clauses_split, List.mem_append] at hi hj
  rcases hi with hi | hi
  · exact absurd (mem_numberFrom _ _ _ _ hi).1 h1
  rcases hj with hj | hj
  · exact absurd (mem_numberFrom _ _ _ _ hj).1 h2
  simp only [timeBindings, limitBinding, offsetBinding] at hi hj
  split_ifs at hi hj <;>
    simp [numberFrom, (by decide : " AND created_at > " ≠ " AND created_at < "),
      (by decide : " AND created_at > " ≠ " LIMIT "),
      (by decide : " AND created_at > " ≠ " OFFSET "),
      (by decide : " AND created_at < " ≠ " AND created_at > "),
      (by decide : " AND created_at < " ≠ " LIMIT "),
      (by decide : " AND created_at < " ≠ " OFFSET ")] at hi hj <;> omega

/-- C7: for every visiting order, FilterBy and Pagination, the query is the
fixed head followed by a tail, every argument belongs to one clause of the tail,
and
* a non-zero `CreatedAfter` gives exactly one clause with the fragment
  ` AND created_at > `, and the argument at the index of its placeholder is
  `CreatedAfter`;
* a non-zero `CreatedBefore` gives exactly one clause with the fragment
  ` AND created_at < `, and the argument at the index of its placeholder is
  `CreatedBefore`;
* the placeholder of a `created_at >` clause is smaller than that of a
  `created_at <` clause;
* a zero timestamp gives no clause of its fragment, and the argument list does
  not hold it. -/
theorem getUsers_created_at (order : List String) (filter : FilterBy) (settings : Pagination) :
    ∃ tail, (BuildGetUsersQuery order filter settings).1 = baseQuery ++ tail ∧
      (BuildGetUsersQuery order filter settings).2.length = (clauses tail).length ∧
      (filter.CreatedAfter.IsZero = false → ∃ i,
        (clauses tail).filter (fun cl => decide (cl.1 = " AND created_at > ")) =
          [(" AND created_at > ", i)] ∧ 1 ≤ i ∧
        (BuildGetUsersQuery order filter settings).2[i - 1]? =
          some (Arg.time filter.CreatedAfter)) ∧
      (filter.CreatedBefore.IsZero = false → ∃ j,
        (clauses tail).filter (fun cl => decide (cl.1 = " AND created_at < ")) =
          [(" AND created_at < ", j)] ∧ 1 ≤ j ∧
        (BuildGetUsersQuery order filter settings).2[j - 1]? =
          some (Arg.time filter.CreatedBefore)) ∧
      (∀ i j, (" AND created_at > ", i) ∈ clauses tail →
        (" AND created_at < ", j) ∈ clauses tail → i < j) ∧
      (filter.CreatedAfter.IsZero = true →
        (clauses tail).filter (fun cl => decide (cl.1 = " AND created_at > ")) = [] ∧
        Arg.time filter.CreatedAfter ∉ (BuildGetUsersQuery order filter settings).2) ∧
      (filter.CreatedBefore.IsZero = true →
        (clauses tail).filter (fun cl => decide (cl.1 = " AND created_at < ")) = [] ∧
        Arg.time filter.CreatedBefore ∉ (BuildGetUsersQuery order filter settings).2) := by
  have ha := count_after order filter settings
  have hb := count_before order filter settings
  rw [BuildGetUsersQuery_eq]
  refine ⟨renderFrom 1 ((bindings order filter settings).map Prod.fst), rfl,
    args_length_clauses order filter settings, ?_, ?_,
    after_before_order order filter settings, ?_, ?_⟩
  · intro hz
    simp only [hz] at ha
    exact clause_of_count_one order filter settings _ _ ha rfl
  · intro hz
    simp only [hz] at hb
    exact clause_of_count_one order filter settings _ _ hb rfl
  · intro hz
    simp only [hz, if_true] at ha
    refine ⟨?_, fun h => ?_⟩
    · rw [clauses_bindings]
      exact filter_numberFrom_none _ _ _ (List.count_eq_zero.1 ha)
    · have := mem_bindings_time order filter settings _ h
      rw [hz] at this
      exact Bool.noConfusion this
  · intro hz
    simp only [hz, if_true] at hb
    refine ⟨?_, fun h => ?_⟩
    · rw [clauses_bindings]
      exact filter_numberFrom_none _ _ _ (List.count_eq_zero.1 hb)
    · have := mem_bindings_time order filter settings _ h
      rw [hz] at this
      exact Bool.noConfusion this

theorem getElem?_append_len {α : Type} (a b : List α) (k : Nat) :
    (a ++ b)[a.length + k]? = b[k]? := by
  rw [List.getElem?_append_right (by omega)]
  congr 1
  omega

theorem where_fragments (order : List String) (filter : FilterBy) :
    ∀ f ∈ (stringBindings order filter ++ timeBindings filter).map Prod.fst,
      IsWherePredicate f := by
  intro f hf
  obtain ⟨b, hb, rfl⟩ := List.mem_map.1 hf
  rcases List.mem_append.1 hb with hb | hb
  · obtain ⟨field, _, _, rfl⟩ := mem_stringBindings.1 hb
    exact ⟨field.data ++ " = ".data, by simp [eqFragment, String.data_append]⟩
  · simp only [timeBindings, List.mem_append] at hb
    rcases hb with hb | hb <;> split_ifs at hb
    · rw [List.mem_singleton.1 hb]; exact ⟨"created_at > ".data, rfl⟩
    · simp at hb
    · rw [List.mem_singleton.1 hb]; exact ⟨"created_at < ".data, rfl⟩
    · simp at hb

theorem not_where_limit : ¬ IsWherePredicate " LIMIT " ∧ ¬ IsWherePredicate " OFFSET " := by
  constructor <;> rintro ⟨rest, h⟩ <;> simp at h

/-- C8: for every visiting order, FilterBy and Pagination, the query is the
fixed head followed by a tail whose clauses are: the WHERE predicates `ws`, then
the clause ` LIMIT $k` exactly when `Limit > 0`, then the clause ` OFFSET $m`
exactly when `Offset > 0`; `k` and `m` are the next free indices, the arguments
at these indices are `Limit` and `Offset`, and the argument list has one element
per clause, so a `Limit` or `Offset` that is zero or negative adds no clause and
no argument. -/
theorem getUsers_limit_offset (order : List String) (filter : FilterBy)
    (settings : Pagination) :
    ∃ tail ws, (BuildGetUsersQuery order filter settings).1 = baseQuery ++ tail ∧
      clauses tail = ws ++
        ((if settings.Limit > 0 then [(" LIMIT ", ws.length + 1)] else []) ++
         (if settings.Offset > 0 then
            [(" OFFSET ", ws.length + (if settings.Limit > 0 then 2 else 1))] else [])) ∧
      (∀ cl ∈ ws, IsWherePredicate cl.1) ∧
      (BuildGetUsersQuery order filter settings).2.length =
        ws.length + (if settings.Limit > 0 then 1 else 0) +
          (if settings.Offset > 0 then 1 else 0) ∧
      (settings.Limit > 0 →
        (BuildGetUsersQuery order filter settings).2[ws.length]? =
          some (Arg.int settings.Limit)) ∧
      (settings.Offset > 0 →
        (BuildGetUsersQuery order filter settings).2[
          ws.length + (if settings.Limit > 0 then 1 else 0)]? =
          some (Arg.int settings.Offset)) ∧
      ((∃ k, (" LIMIT ", k) ∈ clauses tail) ↔ settings.Limit > 0) ∧
      ((∃ m, (" OFFSET ", m) ∈ clauses tail) ↔ settings.Offset > 0) := by
  have hw := where_fragments order filter
  obtain ⟨hnl, hno⟩ := not_where_limit
  have hsplit : bindings order filter settings =
      (stringBindings order filter ++ timeBindings filter) ++
        (limitBinding settings ++ offsetBinding settings) := by
    simp [bindings]
  have hws : ∀ cl ∈ numberFrom 1 ((stringBindings order filter ++ timeBindings filter).map
      Prod.fst), IsWherePredicate cl.1 := by
    rintro ⟨g, i⟩ hcl
    exact hw g (mem_numberFrom _ _ _ _ hcl).1
  have hcl : clauses (renderFrom 1 ((bindings order filter settings).map Prod.fst)) =
      numberFrom 1 ((stringBindings order filter ++ timeBindings filter).map Prod.fst) ++
      numberFrom (1 + (stringBindings order filter ++ timeBindings filter).length)
        ((limitBinding settings ++ offsetBinding settings).map Prod.fst) := by
    rw [clauses_bindings, hsplit, List.map_append, numberFrom_append, List.length_map]
  rw [BuildGetUsersQuery_eq]
  refine ⟨renderFrom 1 ((bindings order filter settings).map Prod.fst),
    numberFrom 1 ((stringBindings order filter ++ timeBindings filter).map Prod.fst),
    rfl, ?_, hws, ?_, ?_, ?_, ?_, ?_⟩
  · rw [hcl, numberFrom_length, List.length_map]
    simp only [limitBinding, offsetBinding]
    split_ifs <;> simp [numberFrom] <;> omega
  · rw [numberFrom_length, List.length_map, hsplit]
    simp only [limitBinding, offsetBinding]
    split_ifs <;> simp <;> omega
  · intro hl
    rw [numberFrom_length, List.length_map, hsplit]
    have e := getElem?_append_len
      ((stringBindings order filter ++ timeBindings filter).map Prod.snd)
      ((limitBinding settings ++ offsetBinding settings).map Prod.snd) 0
    simp only [List.length_map, Nat.add_zero] at e
    dsimp only
    rw [List.map_append, e]
    simp [limitBinding, hl]
  · intro ho
    rw [numberFrom_length, List.length_map, hsplit]
    have e := getElem?_append_len
      ((stringBindings order filter ++ timeBindings filter).map Prod.snd)
      ((limitBinding settings ++ offsetBinding settings).map Prod.snd)
      (if settings.Limit > 0 then 1 else 0)
    simp only [List.length_map] at e
    dsimp only
    rw [List.map_append, e]
    simp only [limitBinding, offsetBinding, ho, if_true]
    split_ifs <;> simp
  · rw [hcl]
    constructor
    · rintro ⟨k, hk⟩
      rcases List.mem_append.1 hk with hk | hk
      · exact absurd (hws _ hk) hnl
      · by_contra hl
        simp only [limitBinding, offsetBinding, hl, if_false] at hk
        split_ifs at hk <;> simp [numberFrom] at hk
    · intro hl
      exact ⟨1 + (stringBindings order filter ++ timeBindings filter).length,
        List.mem_append_right _ (by simp [limitBinding, hl, numberFrom])⟩
  · rw [hcl]
    constructor
    · rintro ⟨k, hk⟩
      rcases List.mem_append.1 hk with hk | hk
      · exact absurd (hws _ hk) hno
      · by_contra ho
        simp only [limitBinding, offsetBinding, ho, if_false] at hk
        split_ifs at hk <;> simp [numberFrom] at hk
    · intro ho
      by_cases hl : settings.Limit > 0
      · exact ⟨1 + (stringBindings order filter ++ timeBindings filter).length + 1,
          List.mem_append_right _ (by simp [limitBinding, offsetBinding, hl, ho, numberFrom])⟩
      · exact ⟨1 + (stringBindings order filter ++ timeBindings filter).length,
          List.mem_append_right _ (by simp [limitBinding, offsetBinding, hl, ho, numberFrom])⟩

/-! ## BuildUpdateUserQuery -/

theorem len_pos_iff (s : String) : len s > 0 ↔ s ≠ "" := by
  rcases s with ⟨l⟩
  rw [len, String.utf8ByteSize_mk, gt_iff_lt, Nat.pos_iff_ne_zero, ne_eq, ne_eq,
    String.utf8Len_eq_zero]
  constructor
  · intro h e
    exact h (congrArg String.data e)
  · intro h e
    exact h (congrArg String.mk e)

theorem intercalate_go_snoc (s x : String) (l : List String) : ∀ acc : String,
    String.intercalate.go acc s (l ++ [x]) = String.intercalate.go acc s l ++ s ++ x := by
  induction l with
  | nil => intro acc; rfl
  | cons a as ih => intro acc; exact ih _

theorem intercalate_snoc (s x a : String) (l : List String) :
    s.intercalate ((a :: l) ++ [x]) = s.intercalate (a :: l) ++ s ++ x :=
  intercalate_go_snoc s x l a

theorem intercalate_go_ne (s : String) (l : List String) : ∀ acc : String, acc ≠ "" →
    String.intercalate.go acc s l ≠ "" := by
  induction l with
  | nil => intro acc h; exact h
  | cons a as ih =>
    intro acc h
    apply ih
    intro e
    have e2 := congrArg String.data e
    simp only [String.data_append, List.append_eq_nil] at e2
    exact h (String.ext e2.1.1)

theorem intercalate_ne (s : String) (l : List String) (hl : l ≠ [])
    (h : ∀ a ∈ l, a ≠ "") : s.intercalate l ≠ "" := by
  cases l with
  | nil => exact absurd rfl hl
  | cons a as => exact intercalate_go_ne s as a (h a (List.mem_cons_self _ _))

theorem assignment_ne (c : String) (k : Nat) : c ++ " = $" ++ fmtInt k ≠ "" := by
  intro e
  have e2 := congrArg String.data e
  simp [String.data_append] at e2

theorem mem_assignmentsFrom (cs : List String) : ∀ k, ∀ a ∈ assignmentsFrom k cs, a ≠ "" := by
  induction cs with
  | nil => intro k a h; simp [assignmentsFrom] at h
  | cons c cs ih =>
    intro k a h
    simp only [assignmentsFrom, List.mem_cons] at h
    rcases h with rfl | h
    · exact assignment_ne c k
    · exact ih _ a h

/-- The step of the join: appending `x` to a builder that holds the join of `prev`. -/
theorem join_step (prev : List String) (x : String) (h : ∀ a ∈ prev, a ≠ "") :
    (if len (", ".intercalate prev) > 0 then ", ".intercalate prev ++ ", "
      else ", ".intercalate prev) ++ x = ", ".intercalate (prev ++ [x]) := by
  cases prev with
  | nil =>
    have : ¬ len (", ".intercalate []) > 0 := by decide
    rw [if_neg this]
    rfl
  | cons a as =>
    have : len (", ".intercalate (a :: as)) > 0 :=
      (len_pos_iff _).2 (intercalate_ne _ _ (by simp) h)
    rw [if_pos this, intercalate_snoc]

theorem fold_addField (es : List (String × String)) : ∀ (prev : List String) (b : Builder),
    b.text = ", ".intercalate prev → (∀ a ∈ prev, a ≠ "") →
    es.foldl (fun b e => addField b e.1 (Arg.string e.2)) b =
      { text := ", ".intercalate (prev ++ assignmentsFrom b.argIndex (es.map Prod.fst))
        args := b.args ++ es.map (fun e => Arg.string e.2)
        argIndex := b.argIndex + es.length } := by
  induction es with
  | nil => intro prev b hb _; simp [assignmentsFrom, ← hb]
  | cons e es ih =>
    intro prev b hb hprev
    have hstep : (addField b e.1 (Arg.string e.2)).text =
        ", ".intercalate (prev ++ [e.1 ++ " = $" ++ fmtInt b.argIndex]) := by
      simp only [addField, hb]
      exact join_step prev _ hprev
    have hne : ∀ a ∈ prev ++ [e.1 ++ " = $" ++ fmtInt b.argIndex], a ≠ "" := by
      intro a ha
      rcases List.mem_append.1 ha with ha | ha
      · exact hprev a ha
      · rw [List.mem_singleton.1 ha]; exact assignment_ne _ _
    rw [List.foldl_cons, ih _ _ hstep hne]
    simp [addField, assignmentsFrom, Nat.add_assoc, Nat.add_comm 1]

theorem foldl_filter {α β : Type} (p : α → Bool) (f : β → α → β) (l : List α) : ∀ b : β,
    l.foldl (fun b a => if p a then f b a else b) b = (l.filter p).foldl f b := by
  induction l with
  | nil => intro b; rfl
  | cons a l ih =>
    intro b
    by_cases h : p a = true
    · simp [List.filter, h, ih]
    · simp [List.filter, h, ih]

/-- The code produces the statement and the arguments that the specification
describes. -/
theorem BuildUpdateUserQuery_eq (user : User) :
    BuildUpdateUserQuery user =
      (updateText ((activeFields user).map Prod.fst),
        (activeFields user).map (fun e => Arg.string e.2) ++ [Arg.int32 user.ID]) := by
  have hfold : BuildUpdateUserQuery user =
      (let b6 := (updateFields user).foldl
          (fun b e => if decide (e.2 ≠ "") then addField b e.1 (Arg.string e.2) else b)
          { text := "", args := [], argIndex := 1 }
       ("UPDATE users SET " ++
          ((if len b6.text > 0 then b6.text ++ ", " else b6.text) ++ "updated_at = NOW()") ++
          " WHERE id = $" ++ fmtInt b6.argIndex,
        b6.args ++ [Arg.int32 user.ID])) := by
    simp [BuildUpdateUserQuery, updateFields]
  rw [hfold, foldl_filter (fun e : String × String => decide (e.2 ≠ ""))
    (fun b e => addField b e.1 (Arg.string e.2))]
  have h := fold_addField (activeFields user) [] { text := "", args := [], argIndex := 1 } rfl
    (by simp)
  simp only [activeFields] at h ⊢
  rw [h]
  simp only [List.nil_append, updateText, List.length_map]
  rw [join_step _ _ (mem_assignmentsFrom _ _), Nat.add_comm 1]

theorem occurrences_updateText : ∀ cols ∈ updateColumns.sublists,
    occurrences "updated_at = NOW()" (updateText cols) = 1 := by
  decide!

theorem activeFields_sublist (user : User) :
    (activeFields user).map Prod.fst ∈ updateColumns.sublists := by
  rw [List.mem_sublists]
  have h : updateColumns = (updateFields user).map Prod.fst := rfl
  rw [h]
  exact (List.filter_sublist _).map _

/-- C10: for every User, with `activeFields user` the entries of
(passport_serie, passport_number, name, surname, patronymic, address) whose
value is not empty, in that order: the statement is `UPDATE users SET`, then the
assignments `<column> = $i` of these entries (`i` counting from 1) followed by
`updated_at = NOW()`, all joined by `, `, then the WHERE clause; the `i`-th
argument is the value of the `i`-th of these entries; `updated_at = NOW()`
occurs exactly once in the statement; and when all six values are empty the
statement is exactly `UPDATE users SET updated_at = NOW() WHERE id = $1`. -/
theorem updateUser_set_list (user : User) :
    (BuildUpdateUserQuery user).1 =
      "UPDATE users SET " ++
        ", ".intercalate
          (assignmentsFrom 1 ((activeFields user).map Prod.fst) ++ ["updated_at = NOW()"]) ++
        " WHERE id = $" ++ fmtInt ((activeFields user).length + 1) ∧
    (BuildUpdateUserQuery user).2 =
      (activeFields user).map (fun e => Arg.string e.2) ++ [Arg.int32 user.ID] ∧
    occurrences "updated_at = NOW()" (BuildUpdateUserQuery user).1 = 1 ∧
    ((∀ e ∈ updateFields user, e.2 = "") →
      (BuildUpdateUserQuery user).1 = "UPDATE users SET updated_at = NOW() WHERE id = $1") := by
  rw [BuildUpdateUserQuery_eq]
  refine ⟨by simp [updateText], rfl,
    occurrences_updateText _ (activeFields_sublist user), ?_⟩
  intro h
  have hnil : activeFields user = [] := by
    apply List.filter_eq_nil_iff.2
    intro e he
    simp [h e he]
  simp only [hnil, List.map_nil]
  decide

theorem placeholders_updateText : ∀ cols ∈ updateColumns.sublists,
    placeholders (updateText cols) = List.range' 1 (cols.length + 1) := by
  decide!

theorem activeFields_length_le (user : User) : (activeFields user).length ≤ 6 :=
  (List.length_filter_le _ _).trans (le_of_eq rfl)

/-- C11: for every User, with `k` the number of its non-empty string fields
(`0 ≤ k ≤ 6`): the argument list has length `k + 1`, its last element, at
position `k + 1`, is `user.ID`; the statement ends with
`WHERE id = $(k+1)`, and its placeholders are `$1, ..., $(k+1)` from left to
right, so the last placeholder is the position of the ID among the
arguments. -/
theorem updateUser_id_last (user : User) :
    (activeFields user).length ≤ 6 ∧
    (BuildUpdateUserQuery user).2.length = (activeFields user).length + 1 ∧
    (BuildUpdateUserQuery user).2.getLast? = some (Arg.int32 user.ID) ∧
    (BuildUpdateUserQuery user).2[(activeFields user).length]? = some (Arg.int32 user.ID) ∧
    (∃ pre, (BuildUpdateUserQuery user).1 =
      pre ++ " WHERE id = $" ++ fmtInt ((activeFields user).length + 1)) ∧
    placeholders (BuildUpdateUserQuery user).1 =
      List.range' 1 ((BuildUpdateUserQuery user).2.length) := by
  rw [BuildUpdateUserQuery_eq]
  refine ⟨activeFields_length_le user, by simp, by simp, by simp, ?_, ?_⟩
  · exact ⟨"UPDATE users SET " ++ ", ".intercalate
      (assignmentsFrom 1 ((activeFields user).map Prod.fst) ++ ["updated_at = NOW()"]),
      by simp only [updateText, List.length_map]⟩
  · have h := placeholders_updateText _ (activeFields_sublist user)
    simp only [List.length_map] at h
    simp only [h, List.length_append, List.length_map, List.length_singleton]

/-- C12: for every User whose Address is not empty and whose Serie, Number,
Name, Surname and Patronymic are empty, `BuildUpdateUserQuery` returns exactly
`UPDATE users SET address = $1, updated_at = NOW() WHERE id = $2` with the
arguments `[Address, ID]`. -/
theorem updateUser_only_address (user : User)
    (haddr : user.People.Address ≠ "")
    (hserie : user.Passport.Serie = "") (hnumber : user.Passport.Number = "")
    (hname : user.People.Name = "") (hsurname : user.People.Surname = "")
    (hpatr : user.People.Patronymic = "") :
    BuildUpdateUserQuery user =
      ("UPDATE users SET address = $1, updated_at = NOW() WHERE id = $2",
        [Arg.string user.People.Address, Arg.int32 user.ID]) := by
  have hact : activeFields user = [("address", user.People.Address)] := by
    simp [activeFields, updateFields, List.filter, haddr, hserie, hnumber, hname, hsurname,
      hpatr]
  rw [BuildUpdateUserQuery_eq, hact]
  simp only [List.map_cons, List.map_nil, List.singleton_append]
  exact congrArg (fun t => (t, [Arg.string user.People.Address, Arg.int32 user.ID]))
    (by decide : updateText ["address"] =
      "UPDATE users SET address = $1, updated_at = NOW() WHERE id = $2")

/-- Witness of C12: user 7 with only the address set. -/
theorem updateUser_only_address_witness :
    BuildUpdateUserQuery
        { ID := 7, CreatedAt := ⟨0, 0⟩, UpdatedAt := ⟨0, 0⟩,
          Passport := { Serie := "", Number := "" },
          People := { Name := "", Surname := "", Patronymic := "", Address := "Elm St 5" } } =
      ("UPDATE users SET address = $1, updated_at = NOW() WHERE id = $2",
        [Arg.string "Elm St 5", Arg.int32 7]) :=
  updateUser_only_address _ (by decide) rfl rfl rfl rfl rfl

/-! ## repo/user.go: what the methods return -/

/-- C16 (the code departs from the claim): for every id, when `Exec` completes
without an error and reports zero affected rows, `DeleteUser` returns `nil`; the
command tag is discarded and `pgx.ErrNoRows` is never the error of `Exec`. -/
theorem deleteUser_zero_rows (σ : Type) (id : Int) (s : σ) :
    DeleteUser (fun _ _ (s : σ) => (Except.ok 0, s)) id s = (none, s) ∧
    (DeleteUser (fun _ _ (s : σ) => (Except.ok 0, s)) id s).1 ≠
      some (GoError.wrap "repo.DeleteUser" ErrUserNotFound) := by
  constructor
  · rfl
  · intro h
    exact Option.noConfusion h

/-- C17 (the code departs from the claim): when the driver reports the
uniqueness violation as pgx/v5 does, by a `*PgError` of `pgx/v5/pgconn` with
Code 23505, `errors.As` with the target type of `user.go` fails and `CreateUser`
returns id 0 and the wrapped error, which is not and does not wrap
`ErrPassportDuplicate`; only a `*PgError` of the other package gives
`ErrPassportDuplicate`. On the users table, of two calls with the same passport
the first returns id 1 and the second the wrapped error. -/
theorem createUser_duplicate_wrapped (σ : Type) (user : User) (s : σ) :
    CreateUser (fun _ _ (s : σ) => (Except.error (GoError.pgError PgPackage.pgxV5 "23505"), s))
        user s =
      ((0, some (GoError.wrap "repo.CreateUser" (GoError.pgError PgPackage.pgxV5 "23505"))), s) ∧
    errorsIs (GoError.wrap "repo.CreateUser" (GoError.pgError PgPackage.pgxV5 "23505"))
      ErrPassportDuplicate = false ∧
    CreateUser (fun _ _ (s : σ) => (Except.error (GoError.pgError PgPackage.pgconn "23505"), s))
        user s = ((0, some ErrPassportDuplicate), s) ∧
    (CreateUser UsersTable.QueryRowScan user { rows := [], nextID := 1 }).1 = (1, none) ∧
    (CreateUser UsersTable.QueryRowScan user
        (CreateUser UsersTable.QueryRowScan user { rows := [], nextID := 1 }).2).1 =
      (0, some (GoError.wrap "repo.CreateUser" (GoError.pgError PgPackage.pgxV5 "23505"))) := by
  refine ⟨rfl, by decide, rfl, ?_, ?_⟩
  · simp [CreateUser, UsersTable.QueryRowScan]
  · simp [CreateUser, UsersTable.QueryRowScan, errorsAsPgError]

/-- C18 (the code departs from the claim): whatever error `Exec` reports,
`UpdateUser` returns it wrapped with the prefix `repo.UpdateUser`; in particular
for a uniqueness violation (a `*PgError` with Code 23505, of either package) it
returns the wrapped error, which is not and does not wrap
`ErrPassportDuplicate`. -/
theorem updateUser_duplicate_wrapped (σ : Type) (user : User) (s : σ) (pkg : PgPackage)
    (err : GoError) :
    UpdateUser (fun _ _ (s : σ) => (Except.error err, s)) user s =
      (some (GoError.wrap "repo.UpdateUser" err), s) ∧
    UpdateUser (fun _ _ (s : σ) => (Except.error (GoError.pgError pkg "23505"), s)) user s =
      (some (GoError.wrap "repo.UpdateUser" (GoError.pgError pkg "23505")), s) ∧
    errorsIs (GoError.wrap "repo.UpdateUser" (GoError.pgError pkg "23505"))
      ErrPassportDuplicate = false := by
  refine ⟨rfl, rfl, ?_⟩
  cases pkg <;> decide

/-! ## The conditional update of FinishWorklog -/

theorem errorsIs_refl (err : GoError) : errorsIs err err = true := by
  cases err <;> simp [errorsIs]

theorem isOpen_iff (worklogID : Int) (row : WorklogRow) :
    isOpen worklogID row = true ↔ row.id = worklogID ∧ row.finished_at = none := by
  simp [isOpen, Option.isNone_iff_eq_none]

theorem closeAt_of_not_open (now : Time) (worklogID : Int) (row : WorklogRow)
    (h : isOpen worklogID row = false) : closeAt now worklogID row = row := by
  simp [closeAt, h]

theorem closeAt_not_open (now : Time) (worklogID w : Int) (row : WorklogRow) :
    isOpen worklogID (closeAt now w row) = true → isOpen worklogID row = true := by
  unfold closeAt
  split_ifs with h
  · simp [isOpen]
  · exact id

theorem closeAt_closed (now : Time) (worklogID : Int) (row : WorklogRow) :
    isOpen worklogID (closeAt now worklogID row) = false := by
  unfold closeAt
  split_ifs with h
  · simp [isOpen]
  · simpa using h

theorem map_closeAt_eq (now : Time) (worklogID : Int) (rows : List WorklogRow)
    (h : rows.filter (isOpen worklogID) = []) : rows.map (closeAt now worklogID) = rows := by
  rw [List.filter_eq_nil_iff] at h
  conv_rhs => rw [← List.map_id rows]
  apply List.map_congr_left
  intro row hrow
  exact closeAt_of_not_open now worklogID row (by simpa using h row hrow)

theorem map_closeAt_ne (now : Time) (worklogID : Int) (rows : List WorklogRow)
    (h : rows.filter (isOpen worklogID) ≠ []) : rows.map (closeAt now worklogID) ≠ rows := by
  intro e
  obtain ⟨row, hrow⟩ := List.exists_mem_of_ne_nil _ h
  obtain ⟨hmem, hopen⟩ := List.mem_filter.1 hrow
  have h1 : closeAt now worklogID row ∈ rows.map (closeAt now worklogID) :=
    List.mem_map_of_mem _ hmem
  have key : ∀ r ∈ rows.map (closeAt now worklogID), isOpen worklogID r = false := by
    intro r hr
    obtain ⟨r0, _, rfl⟩ := List.mem_map.1 hr
    exact closeAt_closed now worklogID r0
  rw [e] at key
  rw [key row hmem] at hopen
  exact Bool.noConfusion hopen

theorem filter_isOpen_ids (worklogID : Int) (rows : List WorklogRow) :
    ∀ id ∈ (rows.filter (isOpen worklogID)).map (fun row => row.id), id = worklogID := by
  intro id hid
  obtain ⟨row, hrow, rfl⟩ := List.mem_map.1 hid
  exact ((isOpen_iff worklogID row).1 (List.mem_filter.1 hrow).2).1

/-- The outcome of `QueryRow(...).Scan(&id)` for the statement of `FinishWorklog`. -/
theorem queryRowScan_finish (c : Call) (worklogID : Int) (s : Store) :
    Store.QueryRowScan c finishWorklogQuery [Arg.int32 worklogID] s =
      match c.fault with
      | some err => (.error err, s)
      | none =>
        if s.worklogs.filter (isOpen worklogID) = [] then (.error pgxErrNoRows, s)
        else (.ok worklogID, { s with worklogs := s.worklogs.map (closeAt c.now worklogID) }) := by
  have hq : finishWorklogQuery ≠ startWorklogQuery := by decide
  unfold Store.QueryRowScan
  cases hf : c.fault with
  | some err => rfl
  | none =>
    simp only [hq, if_false, if_true]
    by_cases h : s.worklogs.filter (isOpen worklogID) = []
    · simp only [h, List.map_nil, if_true]
      rw [map_closeAt_eq _ _ _ h]
    · simp only [h, if_false]
      cases hl : (s.worklogs.filter (isOpen worklogID)).map (fun row => row.id) with
      | nil => exact absurd (List.map_eq_nil_iff.1 hl) h
      | cons id rest =>
        have := filter_isOpen_ids worklogID s.worklogs id (by rw [hl]; exact List.mem_cons_self _ _)
        simp only [this]

/-- What `FinishWorklog` returns on the store, and the state it leaves. -/
theorem FinishWorklog_store (c : Call) (worklogID : Int) (s : Store) :
    FinishWorklog (Store.QueryRowScan c) worklogID s =
      match c.fault with
      | some err =>
        (if errorsIs err pgxErrNoRows then some ErrAlreadyDone
          else some (.wrap "repo.FinishWorklog" err), s)
      | none =>
        if s.worklogs.filter (isOpen worklogID) = [] then (some ErrAlreadyDone, s)
        else (none, { s with worklogs := s.worklogs.map (closeAt c.now worklogID) }) := by
  unfold FinishWorklog
  rw [queryRowScan_finish]
  cases hf : c.fault with
  | some err => by_cases h : errorsIs err pgxErrNoRows = true <;> simp [h]
  | none =>
    by_cases h : s.worklogs.filter (isOpen worklogID) = []
    · simp only [h, if_true]
      rfl
    · simp only [h, if_false]

theorem open_row_iff (worklogID : Int) (s : Store) :
    (∃ row ∈ s.worklogs, row.id = worklogID ∧ row.finished_at = none) ↔
      s.worklogs.filter (isOpen worklogID) ≠ [] := by
  rw [Ne, List.filter_eq_nil_iff]
  simp only [isOpen_iff, not_forall, Classical.not_not, exists_prop]

theorem finish_nil_iff (c : Call) (worklogID : Int) (s : Store) :
    (FinishWorklog (Store.QueryRowScan c) worklogID s).1 = none ↔
      c.fault = none ∧ ∃ row ∈ s.worklogs, row.id = worklogID ∧ row.finished_at = none := by
  rw [FinishWorklog_store, open_row_iff]
  cases hf : c.fault with
  | some err => by_cases h : errorsIs err pgxErrNoRows = true <;> simp [h]
  | none => by_cases h : s.worklogs.filter (isOpen worklogID) = [] <;> simp [h]

/-- C13: over the store in which the conditional update of `FinishWorklog`
returns a row exactly for the rows it changes: `FinishWorklog` returns `nil` if
and only if the table was changed, which is if and only if the driver reported
no failure and a row with this id and no finish timestamp existed; when the
statement ran and changed no row it returns exactly `ErrAlreadyDone`; and when
the driver reports an error `e` other than `pgx.ErrNoRows` it returns
`fmt.Errorf("%s: %w", "repo.FinishWorklog", e)`, which wraps `e`, and leaves the
table as it was. -/
theorem finishWorklog_result (c : Call) (worklogID : Int) (s : Store) :
    ((FinishWorklog (Store.QueryRowScan c) worklogID s).1 = none ↔
      (FinishWorklog (Store.QueryRowScan c) worklogID s).2 ≠ s) ∧
    ((FinishWorklog (Store.QueryRowScan c) worklogID s).1 = none ↔
      c.fault = none ∧ ∃ row ∈ s.worklogs, row.id = worklogID ∧ row.finished_at = none) ∧
    (c.fault = none → (FinishWorklog (Store.QueryRowScan c) worklogID s).2 = s →
      (FinishWorklog (Store.QueryRowScan c) worklogID s).1 = some ErrAlreadyDone) ∧
    (∀ e, c.fault = some e → errorsIs e pgxErrNoRows = false →
      FinishWorklog (Store.QueryRowScan c) worklogID s =
        (some (GoError.wrap "repo.FinishWorklog" e), s) ∧
      errorsIs (GoError.wrap "repo.FinishWorklog" e) e = true ∧
      GoError.wrap "repo.FinishWorklog" e ≠ ErrAlreadyDone) := by
  rw [FinishWorklog_store]
  have hex := open_row_iff worklogID s
  cases hf : c.fault with
  | some err =>
    refine ⟨?_, ?_, ?_, ?_⟩
    · by_cases h : errorsIs err pgxErrNoRows = true <;> simp [h]
    · by_cases h : errorsIs err pgxErrNoRows = true <;> simp [h]
    · intro h; exact Option.noConfusion h
    · intro e he hne
      have : err = e := Option.some.inj he
      subst this
      refine ⟨by simp [hne], ?_, ?_⟩
      · simp [errorsIs, errorsIs_refl]
      · intro h; exact GoError.noConfusion h
  | none =>
    rw [hex]
    by_cases h : s.worklogs.filter (isOpen worklogID) = []
    · simp [h]
    · have hne : ({ s with worklogs := s.worklogs.map (closeAt c.now worklogID) } : Store) ≠ s := by
        intro e
        exact map_closeAt_ne c.now worklogID s.worklogs h (congrArg Store.worklogs e)
      simp [h, hne]

/-! ## The worklog state machine -/

theorem closeAt_id (now : Time) (worklogID : Int) (row : WorklogRow) :
    (closeAt now worklogID row).id = row.id := by
  unfold closeAt
  split_ifs <;> rfl

theorem StartWorklog_store (c : Call) (task : String) (userID : Int) (s : Store) :
    StartWorklog (Store.QueryRowScan c) task userID s =
      match c.fault with
      | some err => ((0, some (.wrap "repo.StartWorklog" err)), s)
      | none =>
        ((s.nextID, none),
          { worklogs := s.worklogs ++
              [{ id := s.nextID, user_id := userID, task := task, started_at := c.now,
                 finished_at := none }],
            nextID := s.nextID + 1 }) := by
  unfold StartWorklog Store.QueryRowScan
  cases hf : c.fault with
  | some err => rfl
  | none => simp

/-- The condition that the text of the statement of `Worklogs` spells. -/
theorem parseSelect_worklogsQuery :
    parseSelect worklogsQuery =
      some (.and (.and (.cmp "user_id" .eq 1) (.cmp "started_at" .ge 2))
        (.or (.cmp "finished_at" .le 3) (.isNull "finished_at"))) := by
  decide

/-- The condition of the statement is never in error on a row, and it is true
exactly when the row is one that the specification selects. -/
theorem eval_worklogsQuery (p1 : Int) (p2 p3 : Time) (row : WorklogRow) :
    (Cond.eval [Arg.int32 p1, Arg.time p2, Arg.time p3] row
        (.and (.and (.cmp "user_id" .eq 1) (.cmp "started_at" .ge 2))
          (.or (.cmp "finished_at" .le 3) (.isNull "finished_at")))).map
      (fun v => decide (v = some true)) = some (selected p1 p2 p3 row) := by
  have hu : row.column "user_id" = some (.int row.user_id) := by
    simp [WorklogRow.column]
  have hs : row.column "started_at" = some (.time row.started_at) := by
    simp [WorklogRow.column]
  have hfc : row.column "finished_at" =
      some (match row.finished_at with
            | some f => .time f
            | none => .null) := by
    simp [WorklogRow.column]
  have heq : (decide (row.user_id ≤ p1) && decide (p1 ≤ row.user_id)) =
      decide (row.user_id = p1) := by
    by_cases h : row.user_id = p1
    · simp [h]
    · have : ¬ (row.user_id ≤ p1 ∧ p1 ≤ row.user_id) := fun ⟨a, b⟩ => h (le_antisymm a b)
      simpa [h] using this
  cases hfin : row.finished_at with
  | none =>
    simp only [Cond.eval, hu, hs, hfc, hfin, paramVal, List.getElem?_cons_zero,
      List.getElem?_cons_succ, Option.map_some', argVal, compareVals, CmpOp.holds, heq]
    cases h1 : decide (row.user_id = p1) <;> cases h2 : Time.le p2 row.started_at <;>
      simp [selected, hfin, and3, or3, h1, h2]
  | some f =>
    simp only [Cond.eval, hu, hs, hfc, hfin, paramVal, List.getElem?_cons_zero,
      List.getElem?_cons_succ, Option.map_some', argVal, compareVals, CmpOp.holds, heq]
    cases h1 : decide (row.user_id = p1) <;> cases h2 : Time.le p2 row.started_at <;>
      cases h3 : Time.le f p3 <;>
      simp [selected, hfin, and3, or3, h1, h2, h3]

/-- The rows that the store selects for the statement of `Worklogs` are the
rows that the specification selects. -/
theorem selectRows_worklogsQuery (p1 : Int) (p2 p3 : Time) (rows : List WorklogRow) :
    selectRows (.and (.and (.cmp "user_id" .eq 1) (.cmp "started_at" .ge 2))
        (.or (.cmp "finished_at" .le 3) (.isNull "finished_at")))
      [Arg.int32 p1, Arg.time p2, Arg.time p3] rows =
      some (rows.filter (selected p1 p2 p3)) := by
  induction rows with
  | nil => rfl
  | cons row rows ih =>
    have h := eval_worklogsQuery p1 p2 p3 row
    simp only [selectRows, ih]
    cases hv : Cond.eval [Arg.int32 p1, Arg.time p2, Arg.time p3] row
        (.and (.and (.cmp "user_id" .eq 1) (.cmp "started_at" .ge 2))
          (.or (.cmp "finished_at" .le 3) (.isNull "finished_at"))) with
    | none =>
      rw [hv] at h
      exact Option.noConfusion h
    | some v =>
      rw [hv] at h
      simp only [Option.map_some', Option.some.injEq] at h
      by_cases hsel : selected p1 p2 p3 row = true
      · have hv2 : v = some true := by simpa [hsel] using h
        simp [List.filter_cons, hsel, hv2]
      · have hv2 : ¬ v = some true := by simpa [hsel] using h
        simp [List.filter_cons, hsel, hv2]

/-- The outcome of `Query` for the statement of `Worklogs`. -/
theorem query_worklogs (c : Call) (p1 : Int) (p2 p3 : Time) (s : Store) :
    Store.Query c worklogsQuery [Arg.int32 p1, Arg.time p2, Arg.time p3] s =
      match c.fault with
      | some err => (.error err, s)
      | none => (.ok (c.order (s.worklogs.filter (selected p1 p2 p3)), c.rowsErr), s) := by
  unfold Store.Query
  cases c.fault with
  | some err => rfl
  | none => simp only [parseSelect_worklogsQuery, selectRows_worklogsQuery]

theorem Worklogs_store (c : Call) (Scan : WorklogRow → Except GoError Worklog) (userID : Int)
    (a b : Time) (s : Store) :
    (Worklogs (Store.Query c) Scan userID a b s).2 = s := by
  unfold Worklogs
  rw [query_worklogs]
  cases hf : c.fault with
  | some err => rfl
  | none =>
    simp only []
    cases scanRows Scan (c.order (s.worklogs.filter (selected userID a b))) [] with
    | error e => rfl
    | ok ws => cases c.rowsErr <;> rfl

/-- The table after one operation. -/
theorem step_store (c : Call) (op : Op) (s : Store) :
    (step c op s).2 =
      match op with
      | .start task userID =>
        if c.fault = none then
          { worklogs := s.worklogs ++
              [{ id := s.nextID, user_id := userID, task := task, started_at := c.now,
                 finished_at := none }],
            nextID := s.nextID + 1 }
        else s
      | .finish worklogID =>
        if c.fault = none then { s with worklogs := s.worklogs.map (closeAt c.now worklogID) }
        else s
      | .list _ _ _ => s := by
  cases op with
  | start task userID =>
    simp only [step, StartWorklog_store]
    cases hf : c.fault <;> simp
  | finish worklogID =>
    simp only [step, FinishWorklog_store]
    cases hf : c.fault with
    | some err => simp
    | none =>
      by_cases h : s.worklogs.filter (isOpen worklogID) = []
      · simp [h, map_closeAt_eq _ _ _ h]
      · simp [h]
  | list userID a b => exact Worklogs_store c _ userID a b s

theorem storeInv_step (c : Call) (op : Op) (s : Store) (h : StoreInv s) :
    StoreInv (step c op s).2 := by
  rw [step_store]
  obtain ⟨hlt, hnd⟩ := h
  cases op with
  | start task userID =>
    by_cases hf : c.fault = none
    · simp only [hf, if_true]
      constructor
      · intro row hrow
        rcases List.mem_append.1 hrow with hrow | hrow
        · have := hlt row hrow
          show row.id < s.nextID + 1
          omega
        · rw [List.mem_singleton.1 hrow]
          show s.nextID < s.nextID + 1
          omega
      · show ((s.worklogs ++ _).map fun row => row.id).Nodup
        rw [List.map_append, List.nodup_append]
        refine ⟨hnd, by simp, ?_⟩
        intro a ha hb
        obtain ⟨row, hrow, rfl⟩ := List.mem_map.1 ha
        have := hlt row hrow
        simp at hb
        omega
    · simp only [hf, if_false]
      exact ⟨hlt, hnd⟩
  | finish worklogID =>
    by_cases hf : c.fault = none
    · simp only [hf, if_true]
      constructor
      · intro row hrow
        obtain ⟨r0, hr0, rfl⟩ := List.mem_map.1 hrow
        rw [closeAt_id]
        exact hlt r0 hr0
      · show ((s.worklogs.map (closeAt c.now worklogID)).map fun row => row.id).Nodup
        rw [List.map_map]
        have : ((fun row : WorklogRow => row.id) ∘ closeAt c.now worklogID) =
            fun row => row.id := by
          funext row
          exact closeAt_id _ _ _
        rw [this]
        exact hnd
    · simp only [hf, if_false]
      exact ⟨hlt, hnd⟩
  | list userID a b => exact ⟨hlt, hnd⟩

theorem storeInv_of_reachable {s : Store} (h : Reachable s) : StoreInv s := by
  induction h with
  | empty => exact ⟨by simp [Store.empty], by simp [Store.empty]⟩
  | step c op _ ih => exact storeInv_step c op _ ih

theorem closed_step (worklogID : Int) (c : Call) (op : Op) (s : Store)
    (h : Closed worklogID s) : Closed worklogID (step c op s).2 := by
  rw [step_store]
  obtain ⟨hlt, hcl⟩ := h
  cases op with
  | start task userID =>
    by_cases hf : c.fault = none
    · simp only [hf, if_true]
      refine ⟨by show worklogID < s.nextID + 1; omega, ?_⟩
      intro row hrow
      rcases List.mem_append.1 hrow with hrow | hrow
      · exact hcl row hrow
      · rw [List.mem_singleton.1 hrow]
        have : ¬ s.nextID = worklogID := by omega
        simp [isOpen, this]
    · simp only [hf, if_false]
      exact ⟨hlt, hcl⟩
  | finish w =>
    by_cases hf : c.fault = none
    · simp only [hf, if_true]
      refine ⟨hlt, ?_⟩
      intro row hrow
      obtain ⟨r0, hr0, rfl⟩ := List.mem_map.1 hrow
      have h0 := hcl r0 hr0
      cases hopen : isOpen worklogID (closeAt c.now w r0) with
      | false => rfl
      | true => rw [closeAt_not_open c.now worklogID w r0 hopen] at h0; exact h0
    · simp only [hf, if_false]
      exact ⟨hlt, hcl⟩
  | list userID a b => exact ⟨hlt, hcl⟩

theorem closed_of_success (worklogID : Int) (c : Call) (s : Store) (hinv : StoreInv s)
    (h : (FinishWorklog (Store.QueryRowScan c) worklogID s).1 = none) :
    Closed worklogID (step c (.finish worklogID) s).2 := by
  obtain ⟨hf, row, hrow, hid, _⟩ := (finish_nil_iff c worklogID s).1 h
  rw [step_store]
  simp only [hf, if_true]
  refine ⟨hid ▸ hinv.1 row hrow, ?_⟩
  intro r hr
  obtain ⟨r0, _, rfl⟩ := List.mem_map.1 hr
  exact closeAt_closed c.now worklogID r0

theorem finish_of_closed (worklogID : Int) (c : Call) (s : Store) (h : Closed worklogID s) :
    (FinishWorklog (Store.QueryRowScan c) worklogID s).1 ≠ none ∧
    (c.fault = none →
      (FinishWorklog (Store.QueryRowScan c) worklogID s).1 = some ErrAlreadyDone) := by
  have hnil : s.worklogs.filter (isOpen worklogID) = [] := by
    rw [List.filter_eq_nil_iff]
    intro row hrow
    simp [h.2 row hrow]
  rw [FinishWorklog_store]
  cases hf : c.fault with
  | some err => by_cases he : errorsIs err pgxErrNoRows = true <;> simp [he]
  | none => simp [hnil]

theorem finishOutcomes_cons (worklogID : Int) (c : Call) (op : Op)
    (rest : List (Call × Op)) (s : Store) :
    finishOutcomes worklogID ((c, op) :: rest) s =
      (if op = Op.finish worklogID then
          [(c.fault, (FinishWorklog (Store.QueryRowScan c) worklogID s).1)]
        else []) ++ finishOutcomes worklogID rest (step c op s).2 := by
  cases op with
  | start task userID => simp [finishOutcomes]
  | list userID a b => simp [finishOutcomes]
  | finish w =>
    by_cases h : w = worklogID
    · subst h; simp [finishOutcomes]
    · simp [finishOutcomes, h]

theorem finishOutcomes_closed (worklogID : Int) (steps : List (Call × Op)) : ∀ s : Store,
    Closed worklogID s → ∀ x ∈ finishOutcomes worklogID steps s,
      x.2 ≠ none ∧ (x.1 = none → x.2 = some ErrAlreadyDone) := by
  induction steps with
  | nil => intro s _ x hx; simp [finishOutcomes] at hx
  | cons head rest ih =>
    obtain ⟨c, op⟩ := head
    intro s hs x hx
    rw [finishOutcomes_cons, List.mem_append] at hx
    rcases hx with hx | hx
    · split_ifs at hx with hop
      · rw [List.mem_singleton.1 hx]
        exact finish_of_closed worklogID c s hs
      · simp at hx
    · exact ih _ (closed_step worklogID c op s hs) x hx

theorem finishOutcomes_after_success (worklogID : Int) (steps : List (Call × Op)) :
    ∀ (s : Store), StoreInv s →
    ∀ (pre post : List (Option GoError × Option GoError)) (f : Option GoError),
    finishOutcomes worklogID steps s = pre ++ (f, none) :: post →
    ∀ x ∈ post, x.2 ≠ none ∧ (x.1 = none → x.2 = some ErrAlreadyDone) := by
  induction steps with
  | nil =>
    intro s _ pre post f h
    simp [finishOutcomes] at h
  | cons head rest ih =>
    obtain ⟨c, op⟩ := head
    intro s hs pre post f h x hx
    rw [finishOutcomes_cons] at h
    have hs' := storeInv_step c op s hs
    by_cases hop : op = Op.finish worklogID
    · subst hop
      simp only [if_true, List.singleton_append] at h
      cases pre with
      | nil =>
        simp only [List.nil_append, List.cons.injEq, Prod.mk.injEq] at h
        obtain ⟨⟨_, hnone⟩, hrest⟩ := h
        have hcl := closed_of_success worklogID c s hs hnone
        exact finishOutcomes_closed worklogID rest _ hcl x (hrest ▸ hx)
      | cons p pre' =>
        simp only [List.cons_append, List.cons.injEq] at h
        exact ih _ hs' pre' post f h.2 x hx
    · simp only [hop, if_false, List.nil_append] at h
      exact ih _ hs' pre post f h x hx

theorem finishOutcomes_success_once (worklogID : Int) (steps : List (Call × Op)) :
    ∀ (s : Store), StoreInv s →
    ((finishOutcomes worklogID steps s).filter fun x => decide (x.2 = none)).length ≤ 1 := by
  induction steps with
  | nil => intro s _; simp [finishOutcomes]
  | cons head rest ih =>
    obtain ⟨c, op⟩ := head
    intro s hs
    rw [finishOutcomes_cons]
    have hs' := storeInv_step c op s hs
    by_cases hop : op = Op.finish worklogID
    · subst hop
      simp only [if_true, List.singleton_append]
      by_cases hnone : (FinishWorklog (Store.QueryRowScan c) worklogID s).1 = none
      · have hcl := closed_of_success worklogID c s hs hnone
        have hrest : (finishOutcomes worklogID rest (step c (Op.finish worklogID) s).2).filter
            (fun x => decide (x.2 = none)) = [] := by
          rw [List.filter_eq_nil_iff]
          intro x hx
          simpa using (finishOutcomes_closed worklogID rest _ hcl x hx).1
        simp [List.filter_cons, hnone, hrest]
      · simp only [List.filter_cons, hnone, decide_False]
        exact ih _ hs'
    · simp only [hop, if_false, List.nil_append]
      exact ih _ hs'

theorem finished_row_kept (c : Call) (op : Op) (s : Store) (row : WorklogRow) (t : Time)
    (hrow : row ∈ s.worklogs) (ht : row.finished_at = some t) :
    row ∈ (step c op s).2.worklogs := by
  rw [step_store]
  cases op with
  | start task userID =>
    by_cases hf : c.fault = none
    · simp only [hf, if_true]
      exact List.mem_append_left _ hrow
    · simpa only [hf, if_false] using hrow
  | finish w =>
    by_cases hf : c.fault = none
    · simp only [hf, if_true]
      have hno : isOpen w row = false := by simp [isOpen, ht]
      have := List.mem_map_of_mem (closeAt c.now w) hrow
      rwa [closeAt_of_not_open c.now w row hno] at this
    · simpa only [hf, if_false] using hrow
  | list userID a b => exact hrow

theorem row_of_id {s : Store} (h : StoreInv s) {r1 r2 : WorklogRow}
    (h1 : r1 ∈ s.worklogs) (h2 : r2 ∈ s.worklogs) (hid : r1.id = r2.id) : r1 = r2 :=
  List.inj_on_of_nodup_map h.2 h1 h2 hid

/-- The sample store is reached by one `StartWorklog`. -/
theorem sampleStore_reachable : Reachable sampleStore :=
  Reachable.step (sampleCall 50) (Op.start "review" 5) Reachable.empty

/-- A run on the sample store: of two calls of `FinishWorklog` on worklog 1 the
first returns `nil` and the second `ErrAlreadyDone`; worklog 2 does not exist. -/
theorem finishOutcomes_sample :
    finishOutcomes 1
        [(sampleCall 100, Op.finish 1), (sampleCall 110, Op.finish 2),
         (sampleCall 120, Op.finish 1)] sampleStore =
      [(none, none), (none, some ErrAlreadyDone)] := by
  decide

/-- C14: in the state machine of the worklog store,
* a worklog that `StartWorklog` creates (it returns no error) is in the table
  under the returned id, Open, with the given user and task and the time of the
  call as its start;
* in every reachable state and for every operation, a row whose finish
  timestamp is set is still in the table afterwards, unchanged, and it is the
  only row with its id, so the finish timestamp of that worklog is exactly the
  same;
* from every reachable state and on every run of operations, among the calls
  of `FinishWorklog` on one id at most one returns `nil`, and every call after
  one that returned `nil` returns an error, which is `ErrAlreadyDone` whenever
  the driver reports no failure to that call. -/
theorem worklog_finish_once :
    (∀ (c : Call) (task : String) (userID : Int) (s : Store),
      (StartWorklog (Store.QueryRowScan c) task userID s).1.2 = none →
      ∃ row ∈ (StartWorklog (Store.QueryRowScan c) task userID s).2.worklogs,
        row.id = (StartWorklog (Store.QueryRowScan c) task userID s).1.1 ∧
        row.user_id = userID ∧ row.task = task ∧ row.started_at = c.now ∧
        row.finished_at = none) ∧
    (∀ s, Reachable s → ∀ (c : Call) (op : Op) (row : WorklogRow) (t : Time),
      row ∈ s.worklogs → row.finished_at = some t →
      row ∈ (step c op s).2.worklogs ∧
      ∀ r ∈ (step c op s).2.worklogs, r.id = row.id → r.finished_at = some t) ∧
    (∀ s, Reachable s → ∀ (worklogID : Int) (steps : List (Call × Op)),
      ((finishOutcomes worklogID steps s).filter fun x => decide (x.2 = none)).length ≤ 1 ∧
      ∀ (pre post : List (Option GoError × Option GoError)) (f : Option GoError),
        finishOutcomes worklogID steps s = pre ++ (f, none) :: post →
        ∀ x ∈ post, x.2 ≠ none ∧ (x.1 = none → x.2 = some ErrAlreadyDone)) := by
  refine ⟨?_, ?_, ?_⟩
  · intro c task userID s h
    rw [StartWorklog_store] at h ⊢
    cases hf : c.fault with
    | some err => simp [hf] at h
    | none => exact ⟨_, List.mem_append_right _ (List.mem_singleton_self _), rfl, rfl, rfl, rfl, rfl⟩
  · intro s hs c op row t hrow ht
    have hkept := finished_row_kept c op s row t hrow ht
    refine ⟨hkept, ?_⟩
    intro r hr hid
    have hinv := storeInv_step c op s (storeInv_of_reachable hs)
    rw [row_of_id hinv hr hkept hid]
    exact ht
  · intro s hs worklogID steps
    have hinv := storeInv_of_reachable hs
    exact ⟨finishOutcomes_success_once worklogID steps s hinv,
      finishOutcomes_after_success worklogID steps s hinv⟩

/-! ## Two concurrent calls of FinishWorklog -/

theorem interleavings_two :
    interleavings [Event.exec .A, Event.ret .A] [Event.exec .B, Event.ret .B] =
      [[.exec .A, .ret .A, .exec .B, .ret .B], [.exec .A, .exec .B, .ret .A, .ret .B],
       [.exec .A, .exec .B, .ret .B, .ret .A], [.exec .B, .exec .A, .ret .A, .ret .B],
       [.exec .B, .exec .A, .ret .B, .ret .A], [.exec .B, .ret .B, .exec .A, .ret .A]] := by
  decide

theorem filter_map_closeAt (now : Time) (worklogID : Int) (rows : List WorklogRow) :
    (rows.map (closeAt now worklogID)).filter (isOpen worklogID) = [] := by
  rw [List.filter_eq_nil_iff]
  intro row hrow
  obtain ⟨r0, _, rfl⟩ := List.mem_map.1 hrow
  simp [closeAt_closed]

/-- The statement of a call on a table with an open row of this id: the id is
returned and the row closed at the time of the call. -/
theorem exec_open (c : Call) (worklogID : Int) (s : Store) (hf : c.fault = none)
    (h : s.worklogs.filter (isOpen worklogID) ≠ []) :
    Store.QueryRowScan c finishWorklogQuery [Arg.int32 worklogID] s =
      (.ok worklogID, { s with worklogs := s.worklogs.map (closeAt c.now worklogID) }) := by
  rw [queryRowScan_finish]
  simp [hf, h]

/-- The statement of a call on a table without an open row of this id: no row is
returned and the table stays as it is. -/
theorem exec_closed (c : Call) (worklogID : Int) (s : Store) (hf : c.fault = none)
    (h : s.worklogs.filter (isOpen worklogID) = []) :
    Store.QueryRowScan c finishWorklogQuery [Arg.int32 worklogID] s =
      (.error pgxErrNoRows, s) := by
  rw [queryRowScan_finish]
  simp [hf, h]

theorem finish_on_ok {σ : Type} (id worklogID : Int) (s : σ) :
    (FinishWorklog (fun _ _ s => (Except.ok id, s)) worklogID s).1 = none := rfl

theorem finish_on_noRows {σ : Type} (worklogID : Int) (s : σ) :
    (FinishWorklog (fun _ _ s => (Except.error pgxErrNoRows, s)) worklogID s).1 =
      some ErrAlreadyDone := rfl

/-- A call that runs alone goes through its two steps to what `FinishWorklog`
returns and leaves. -/
theorem runRace_alone (cA cB : Call) (worklogID : Int) (s : Store) :
    (runRace cA cB worklogID [.exec .A, .ret .A] s).retA =
      some (FinishWorklog (Store.QueryRowScan cA) worklogID s).1 ∧
    (runRace cA cB worklogID [.exec .A, .ret .A] s).store =
      (FinishWorklog (Store.QueryRowScan cA) worklogID s).2 := by
  simp only [runRace, List.foldl, raceStep, Race.init, FinishWorklog]
  cases Store.QueryRowScan cA finishWorklogQuery [Arg.int32 worklogID] s with
  | mk scan s' =>
    cases scan with
    | error err => by_cases h : errorsIs err pgxErrNoRows = true <;> simp [h]
    | ok id => simp

/-- C15: two calls of `FinishWorklog` on the id of an open worklog run
concurrently, the driver reporting no failure to either. Under every
interleaving of their steps exactly one call returns `nil` and the other returns
`ErrAlreadyDone`; exactly one statement changes the table; and afterwards the
rows of this id that were open carry the time of the call that returned `nil`. -/
theorem finishWorklog_race (cA cB : Call) (worklogID : Int) (s : Store)
    (hA : cA.fault = none) (hB : cB.fault = none)
    (hopen : ∃ row ∈ s.worklogs, row.id = worklogID ∧ row.finished_at = none)
    (sched : List Event)
    (hsched : sched ∈ interleavings [Event.exec .A, Event.ret .A]
      [Event.exec .B, Event.ret .B]) :
    (runRace cA cB worklogID sched s).writes = 1 ∧
    (((runRace cA cB worklogID sched s).retA = some none ∧
      (runRace cA cB worklogID sched s).retB = some (some ErrAlreadyDone) ∧
      (runRace cA cB worklogID sched s).store =
        { s with worklogs := s.worklogs.map (closeAt cA.now worklogID) }) ∨
     ((runRace cA cB worklogID sched s).retB = some none ∧
      (runRace cA cB worklogID sched s).retA = some (some ErrAlreadyDone) ∧
      (runRace cA cB worklogID sched s).store =
        { s with worklogs := s.worklogs.map (closeAt cB.now worklogID) })) := by
  have hne : s.worklogs.filter (isOpen worklogID) ≠ [] := by
    obtain ⟨row, hrow, hid, hfin⟩ := hopen
    intro e
    have : row ∈ s.worklogs.filter (isOpen worklogID) :=
      List.mem_filter.2 ⟨hrow, (isOpen_iff worklogID row).2 ⟨hid, hfin⟩⟩
    rw [e] at this
    exact List.not_mem_nil _ this
  have hwA : ({ s with worklogs := s.worklogs.map (closeAt cA.now worklogID) } : Store) ≠ s :=
    fun e => map_closeAt_ne cA.now worklogID s.worklogs hne (congrArg Store.worklogs e)
  have hwB : ({ s with worklogs := s.worklogs.map (closeAt cB.now worklogID) } : Store) ≠ s :=
    fun e => map_closeAt_ne cB.now worklogID s.worklogs hne (congrArg Store.worklogs e)
  have eA := exec_open cA worklogID s hA hne
  have eB := exec_open cB worklogID s hB hne
  have eAB := exec_closed cB worklogID
    { s with worklogs := s.worklogs.map (closeAt cA.now worklogID) } hB
    (filter_map_closeAt cA.now worklogID s.worklogs)
  have eBA := exec_closed cA worklogID
    { s with worklogs := s.worklogs.map (closeAt cB.now worklogID) } hA
    (filter_map_closeAt cB.now worklogID s.worklogs)
  rw [interleavings_two] at hsched
  simp only [List.mem_cons, List.mem_singleton, List.not_mem_nil, or_false] at hsched
  rcases hsched with rfl | rfl | rfl | rfl | rfl | rfl <;>
    simp [runRace, raceStep, Race.init, eA, eB, eAB, eBA, hwA, hwB, finish_on_ok,
      finish_on_noRows]

/-! ## The selection of Worklogs -/

theorem scanRows_ok (Scan : WorklogRow → Except GoError Worklog) (rows : List WorklogRow) :
    ∀ (acc out : List Worklog), scanRows Scan rows acc = .ok out ↔
      ∃ ws, out = acc ++ ws ∧ List.Forall₂ (fun row w => Scan row = .ok w) rows ws := by
  induction rows with
  | nil =>
    intro acc out
    simp only [scanRows, Except.ok.injEq, List.forall₂_nil_left_iff]
    constructor
    · intro h; exact ⟨[], by simp [h], rfl⟩
    · rintro ⟨ws, h, rfl⟩; simp [h]
  | cons row rows ih =>
    intro acc out
    simp only [scanRows]
    cases hs : Scan row with
    | error err =>
      simp only [List.forall₂_cons_left_iff]
      constructor
      · intro h; exact Except.noConfusion h
      · rintro ⟨ws, _, w, ws', hw, _, _⟩
        rw [hs] at hw
        exact Except.noConfusion hw
    | ok w =>
      simp only [ih, List.forall₂_cons_left_iff]
      constructor
      · rintro ⟨ws, h, hf⟩
        exact ⟨w :: ws, by simp [h], w, ws, hs, hf, rfl⟩
      · rintro ⟨ws, h, w', ws', hw, hf, rfl⟩
        have : w' = w := by
          rw [hs] at hw
          exact (Except.ok.inj hw).symm
        subst this
        exact ⟨ws', by simp [h], hf⟩

theorem scanRows_nil_ok (Scan : WorklogRow → Except GoError Worklog) (rows : List WorklogRow)
    (out : List Worklog) :
    scanRows Scan rows [] = .ok out ↔ List.Forall₂ (fun row w => Scan row = .ok w) rows out := by
  rw [scanRows_ok]
  simp

theorem selected_iff (p1 : Int) (p2 p3 : Time) (row : WorklogRow) :
    selected p1 p2 p3 row = true ↔
      row.user_id = p1 ∧ Time.le p2 row.started_at = true ∧
      (row.finished_at = none ∨ ∃ f, row.finished_at = some f ∧ Time.le f p3 = true) := by
  unfold selected
  cases hf : row.finished_at with
  | none => simp
  | some f => simp [and_assoc]

/-- The loop of `Worklogs` ends with the wrapped error of the first `Scan` that
fails. -/
theorem scanRows_error (Scan : WorklogRow → Except GoError Worklog) (rows : List WorklogRow)
    (h : ∃ row ∈ rows, ∃ e, Scan row = .error e) (acc : List Worklog) :
    ∃ err, scanRows Scan rows acc = .error (.wrap "repo.Worklogs" err) := by
  induction rows generalizing acc with
  | nil =>
    obtain ⟨row, hrow, _⟩ := h
    exact absurd hrow (List.not_mem_nil _)
  | cons r rs ih =>
    simp only [scanRows]
    cases hs : Scan r with
    | error err => exact ⟨err, rfl⟩
    | ok w =>
      obtain ⟨row, hrow, e, he⟩ := h
      rcases List.mem_cons.1 hrow with rfl | hmem
      · rw [hs] at he
        exact Except.noConfusion he
      · exact ih ⟨row, hmem, e, he⟩ _

/-- C20: over the table `worklogs`, when the driver reports no failure and
delivers the selected rows in some order, then for every userID, startDate and
endDate:
* `Worklogs` asks the pool once, with its statement and the arguments
  `[userID, startDate, endDate]` in this order, which the store binds to
  `$1, $2, $3`;
* the rows on which the condition of the statement's text is true are, up to
  order, exactly the rows of the table with `user_id = userID`,
  `started_at >= startDate` and `finished_at` absent or `<= endDate`, so an Open
  row of this user and start is among them whatever `endDate` is and no row of
  another user is;
* `Worklogs` returns a list exactly when `rows.Err()` is nil and `rows.Scan`
  succeeds on every delivered row;
* when an Open row is delivered, `rows.Scan` fails on its NULL finish and
  `Worklogs` returns an error wrapped with `repo.Worklogs` and no list: the
  Open row is not included in a result. -/
theorem worklogs_open_row_fails (c : Call) (userID : Int) (startDate endDate : Time)
    (s : Store) (hf : c.fault = none) (hperm : ∀ rows, (c.order rows).Perm rows) :
    (∀ (answer : String → List Arg → Except GoError (List WorklogRow × Option GoError))
        (record : List (String × List Arg)),
      (Worklogs (recordingPool answer) (rowsScan c.Scan) userID startDate endDate record).2 =
        record ++ [(worklogsQuery, [Arg.int32 userID, Arg.time startDate, Arg.time endDate])]) ∧
    ∃ rows,
      Store.Query c worklogsQuery [Arg.int32 userID, Arg.time startDate, Arg.time endDate] s =
        (.ok (rows, c.rowsErr), s) ∧
      (∀ row, row ∈ rows ↔
        row ∈ s.worklogs ∧ row.user_id = userID ∧ Time.le startDate row.started_at = true ∧
        (row.finished_at = none ∨
          ∃ f, row.finished_at = some f ∧ Time.le f endDate = true)) ∧
      (∀ row ∈ s.worklogs, row.user_id = userID → Time.le startDate row.started_at = true →
        row.finished_at = none → row ∈ rows) ∧
      (∀ row ∈ rows, row.user_id = userID) ∧
      (∀ ws, (Worklogs (Store.Query c) (rowsScan c.Scan) userID startDate endDate s).1 = .ok ws ↔
        c.rowsErr = none ∧
        List.Forall₂ (fun row w => rowsScan c.Scan row = .ok w) rows ws) ∧
      ((∃ row ∈ rows, row.finished_at = none) →
        ∃ err, Worklogs (Store.Query c) (rowsScan c.Scan) userID startDate endDate s =
          (.error (.wrap "repo.Worklogs" err), s)) := by
  have hmem : ∀ row, row ∈ c.order (s.worklogs.filter (selected userID startDate endDate)) ↔
      row ∈ s.worklogs ∧ row.user_id = userID ∧ Time.le startDate row.started_at = true ∧
      (row.finished_at = none ∨
        ∃ f, row.finished_at = some f ∧ Time.le f endDate = true) := by
    intro row
    rw [(hperm _).mem_iff, List.mem_filter, selected_iff]
  have hq : Store.Query c worklogsQuery
      [Arg.int32 userID, Arg.time startDate, Arg.time endDate] s =
      (.ok (c.order (s.worklogs.filter (selected userID startDate endDate)), c.rowsErr), s) := by
    rw [query_worklogs, hf]
  constructor
  · intro answer record
    simp only [Worklogs, recordingPool]
    cases answer worklogsQuery [Arg.int32 userID, Arg.time startDate, Arg.time endDate] with
    | error err => rfl
    | ok res =>
      obtain ⟨rows, rowsErr⟩ := res
      simp only []
      cases scanRows (rowsScan c.Scan) rows [] with
      | error err => rfl
      | ok ws => cases rowsErr <;> rfl
  · refine ⟨_, hq, hmem, ?_, ?_, ?_, ?_⟩
    · intro row hrow hu hs hopen
      exact (hmem row).2 ⟨hrow, hu, hs, Or.inl hopen⟩
    · intro row hrow
      exact ((hmem row).1 hrow).2.1
    · intro ws
      simp only [Worklogs, hq]
      cases hscan : scanRows (rowsScan c.Scan)
          (c.order (s.worklogs.filter (selected userID startDate endDate))) [] with
      | error err =>
        constructor
        · intro h; exact Except.noConfusion h
        · rintro ⟨_, hF⟩
          have := (scanRows_nil_ok (rowsScan c.Scan) _ ws).2 hF
          rw [hscan] at this
          exact Except.noConfusion this
      | ok out =>
        have hout := (scanRows_nil_ok (rowsScan c.Scan) _ out).1 hscan
        cases hr : c.rowsErr with
        | some err =>
          constructor
          · intro h; exact Except.noConfusion h
          · rintro ⟨h, _⟩; exact Option.noConfusion h
        | none =>
          constructor
          · intro h
            have := Except.ok.inj h
            subst this
            exact ⟨rfl, hout⟩
          · rintro ⟨_, hF⟩
            have := (scanRows_nil_ok (rowsScan c.Scan) _ ws).2 hF
            rw [hscan] at this
            exact this
    · rintro ⟨row, hrow, hopen⟩
      obtain ⟨err, herr⟩ := scanRows_error (rowsScan c.Scan) _
        ⟨row, hrow, scanNullTime, by simp [rowsScan, hopen]⟩ []
      exact ⟨err, by simp only [Worklogs, hq, herr]⟩

/-- Witness of C20: the sample store holds the worklog 1 of user 5, open since
second 50. Asked for the worklogs of user 5 from second 0 to second 10, the
statement selects it, and `Worklogs` returns the error of `rows.Scan` on the
NULL finish, wrapped, and no list. -/
theorem worklogs_open_row_fails_witness :
    Store.Query (sampleCall 100) worklogsQuery
        [Arg.int32 5, Arg.time ⟨0, 0⟩, Arg.time ⟨10, 0⟩] sampleStore =
      (.ok (sampleStore.worklogs, none), sampleStore) ∧
    Worklogs (Store.Query (sampleCall 100)) (rowsScan (sampleCall 100).Scan) 5 ⟨0, 0⟩ ⟨10, 0⟩
        sampleStore = (.error (.wrap "repo.Worklogs" scanNullTime), sampleStore) ∧
    ∃ err, Worklogs (Store.Query (sampleCall 100)) (rowsScan (sampleCall 100).Scan) 5 ⟨0, 0⟩
        ⟨10, 0⟩ sampleStore = (.error (.wrap "repo.Worklogs" err), sampleStore) := by
  obtain ⟨rows, hq, hmem, _, _, _, hopen⟩ :=
    (worklogs_open_row_fails (sampleCall 100) 5 ⟨0, 0⟩ ⟨10, 0⟩ sampleStore rfl
      (fun _ => List.Perm.refl _)).2
  refine ⟨?_, ?_, hopen ⟨_, (hmem _).2 ⟨List.mem_singleton.2 rfl, ?_⟩, rfl⟩⟩
  · rw [query_worklogs]
    rfl
  · simp only [Worklogs, query_worklogs]
    rfl
  · decide

/-- Witness of C15: the two calls at the seconds 100 and 200 on the open worklog
of the sample store, the statement of B executed between the steps of A. -/
theorem finishWorklog_race_witness :
    (runRace (sampleCall 100) (sampleCall 200) 1
      [.exec .A, .exec .B, .ret .B, .ret .A] sampleStore).writes = 1 ∧
    (((runRace (sampleCall 100) (sampleCall 200) 1
        [.exec .A, .exec .B, .ret .B, .ret .A] sampleStore).retA = some none ∧
      (runRace (sampleCall 100) (sampleCall 200) 1
        [.exec .A, .exec .B, .ret .B, .ret .A] sampleStore).retB = some (some ErrAlreadyDone) ∧
      (runRace (sampleCall 100) (sampleCall 200) 1
        [.exec .A, .exec .B, .ret .B, .ret .A] sampleStore).store =
        { sampleStore with
          worklogs := sampleStore.worklogs.map (closeAt (sampleCall 100).now 1) }) ∨
     ((runRace (sampleCall 100) (sampleCall 200) 1
        [.exec .A, .exec .B, .ret .B, .ret .A] sampleStore).retB = some none ∧
      (runRace (sampleCall 100) (sampleCall 200) 1
        [.exec .A, .exec .B, .ret .B, .ret .A] sampleStore).retA = some (some ErrAlreadyDone) ∧
      (runRace (sampleCall 100) (sampleCall 200) 1
        [.exec .A, .exec .B, .ret .B, .ret .A] sampleStore).store =
        { sampleStore with
          worklogs := sampleStore.worklogs.map (closeAt (sampleCall 200).now 1) })) :=
  finishWorklog_race (sampleCall 100) (sampleCall 200) 1 sampleStore rfl rfl
    ⟨_, List.mem_singleton_self _, rfl, rfl⟩ _ (by decide)

/-! ## The Worklogs handler -/

theorem not_before_iff_le (t u : Time) : t.Before u = false ↔ Time.le u t = true := by
  simp only [Time.Before, Time.le, Bool.or_eq_false_iff, Bool.and_eq_false_iff,
    decide_eq_false_iff_not, Bool.or_eq_true, Bool.and_eq_true, decide_eq_true_eq]
  omega

/-- C19: for every request whose user id and body were decoded, and every
store:
* when `EndDate` is before `StartDate` the handler answers with the
  invalid-request response, status 400, and the store's `Worklogs` is not
  called;
* otherwise, which is when `StartDate <= EndDate`, the store's `Worklogs` is
  called exactly once, with the user id converted to `int32` (the id itself when
  it fits), `StartDate` and `EndDate`. -/
theorem worklogsHandler_range (answer : Int → Time → Time → Except GoError (List Worklog))
    (userID : Int) (req : WorklogsRequest) (record : List (Int × Time × Time)) :
    (req.EndDate.Before req.StartDate = true →
      WorklogsHandler (recordingGetter answer) (.ok userID) (.ok req) record =
        (.error (ErrInvalidRequest (.errorf "end date should be after start date")), record) ∧
      (ErrInvalidRequest (.errorf "end date should be after start date")).HTTPStatusCode = 400) ∧
    (req.EndDate.Before req.StartDate = false →
      (WorklogsHandler (recordingGetter answer) (.ok userID) (.ok req) record).2 =
        record ++ [(toInt32 userID, req.StartDate, req.EndDate)]) ∧
    (req.EndDate.Before req.StartDate = false ↔ Time.le req.StartDate req.EndDate = true) ∧
    (-2 ^ 31 ≤ userID → userID < 2 ^ 31 → toInt32 userID = userID) := by
  refine ⟨?_, ?_, not_before_iff_le _ _, ?_⟩
  · intro h
    simp [WorklogsHandler, h, ErrInvalidRequest]
  · intro h
    simp only [WorklogsHandler, h, recordingGetter]
    cases answer (toInt32 userID) req.StartDate req.EndDate <;> simp
  · intro h1 h2
    unfold toInt32
    omega

/-! ## ParsePassportData by the number of tokens -/

/-- C24: an input that splits into exactly two tokens, of any lengths, parses
without an error to the passport of the two tokens; an input that splits into
three or more tokens is answered with an error exactly when the first token is
not 4 bytes long and the second is not 6 bytes long, and otherwise parses to the
passport of its first two tokens, the rest being ignored. -/
theorem parsePassport_by_token_count (data2 data3 t1 t2 s1 s2 s3 : String)
    (rest : List String) (h2 : Fields data2 = [t1, t2])
    (h3 : Fields data3 = s1 :: s2 :: s3 :: rest) :
    ParsePassportData data2 = .ret { Serie := t1, Number := t2 } ∧
    ((∃ msg, ParsePassportData data3 = .err msg) ↔ (len s1 ≠ 4 ∧ len s2 ≠ 6)) ∧
    ((len s1 ≠ 4 ∧ len s2 ≠ 6) → ParsePassportData data3 = .err errInvalidFormat) ∧
    (¬ (len s1 ≠ 4 ∧ len s2 ≠ 6) →
      ParsePassportData data3 = .ret { Serie := s1, Number := s2 }) := by
  refine ⟨?_, ?_, ?_, ?_⟩
  · simp [ParsePassportData, invalidFormatCond, h2, GoResult.bind, index]
  · by_cases a : len s1 = 4 <;> by_cases b : len s2 = 6 <;>
      simp [ParsePassportData, invalidFormatCond, h3, GoResult.bind, index, a, b]
  · rintro ⟨a, b⟩
    simp [ParsePassportData, invalidFormatCond, h3, GoResult.bind, index, a, b]
  · intro h
    by_cases a : len s1 = 4 <;> by_cases b : len s2 = 6 <;>
      simp [ParsePassportData, invalidFormatCond, h3, GoResult.bind, index, a, b] at h ⊢

/-- Witness of C24: `"12 345"` has two tokens and parses to them; `"1234 5 x y"`
has four tokens, the first of length 4, and parses to `"1234"` and `"5"`. -/
theorem parsePassport_by_token_count_witness :
    Fields "12 345" = ["12", "345"] ∧ Fields "1234 5 x y" = ["1234", "5", "x", "y"] ∧
    ParsePassportData "12 345" = .ret { Serie := "12", Number := "345" } ∧
    ParsePassportData "1234 5 x y" = .ret { Serie := "1234", Number := "5" } :=
  have h := parsePassport_by_token_count "12 345" "1234 5 x y" "12" "345" "1234" "5" "x" ["y"]
    (by decide) (by decide)
  ⟨by decide, by decide, h.1, h.2.2.2 (by decide)⟩

/-! ## The query texts do not depend on the values -/

/-- Two maps with the same keys whose values are empty at the same entries are
empty at the same keys. -/
theorem mapGet_empty_congr (l1 l2 : List (String × String))
    (hk : l1.map Prod.fst = l2.map Prod.fst)
    (he : l1.map (fun e => decide (e.2 = "")) = l2.map (fun e => decide (e.2 = "")))
    (k : String) : mapGet l1 k = "" ↔ mapGet l2 k = "" := by
  induction l1 generalizing l2 with
  | nil =>
    cases l2 with
    | nil => exact Iff.rfl
    | cons b bs => simp at hk
  | cons a as ih =>
    cases l2 with
    | nil => simp at hk
    | cons b bs =>
      obtain ⟨a1, a2⟩ := a
      obtain ⟨b1, b2⟩ := b
      simp only [List.map_cons, List.cons.injEq] at hk he
      obtain ⟨hk1, hk2⟩ := hk
      obtain ⟨he1, he2⟩ := he
      subst hk1
      have ih2 := ih bs hk2 he2
      simp only [mapGet] at ih2 ⊢
      by_cases hka : k = a1
      · subst hka
        simpa [List.lookup] using he1
      · have hb : (k == a1) = false := beq_false_of_ne hka
        simpa [List.lookup, hb] using ih2

/-- Two lists of entries with the same keys whose values are empty at the same
entries keep the same keys when the entries with an empty value are dropped. -/
theorem filter_nonempty_congr (l1 l2 : List (String × String))
    (hk : l1.map Prod.fst = l2.map Prod.fst)
    (he : l1.map (fun e => decide (e.2 = "")) = l2.map (fun e => decide (e.2 = ""))) :
    (l1.filter fun e => decide (e.2 ≠ "")).map Prod.fst =
      (l2.filter fun e => decide (e.2 ≠ "")).map Prod.fst := by
  induction l1 generalizing l2 with
  | nil =>
    cases l2 with
    | nil => rfl
    | cons b bs => simp at hk
  | cons a as ih =>
    cases l2 with
    | nil => simp at hk
    | cons b bs =>
      simp only [List.map_cons, List.cons.injEq, decide_eq_decide] at hk he
      obtain ⟨hk1, hk2⟩ := hk
      obtain ⟨he1, he2⟩ := he
      have ih2 := ih bs hk2 (by simpa using he2)
      by_cases ha : a.2 = ""
      · have hb : b.2 = "" := he1.mp ha
        simpa [List.filter_cons, ha, hb] using ih2
      · have hb : ¬ b.2 = "" := fun h => ha (he1.mpr h)
        simpa [List.filter_cons, ha, hb, hk1] using ih2

/-- C22: two listing inputs that agree on which string fields are empty, which
timestamps are zero and which of `Limit` and `Offset` are positive get the same
query text from `BuildGetUsersQuery` under the same iteration order, and two
users that agree on which of the six string fields are empty get the same
statement text from `BuildUpdateUserQuery`, whatever the values and the IDs are. -/
theorem query_text_ignores_values (order : List String) (f1 f2 : FilterBy)
    (p1 p2 : Pagination) (u1 u2 : User)
    (hstrings : (stringFields f1).map (fun e => decide (e.2 = "")) =
      (stringFields f2).map (fun e => decide (e.2 = "")))
    (hafter : f1.CreatedAfter.IsZero = f2.CreatedAfter.IsZero)
    (hbefore : f1.CreatedBefore.IsZero = f2.CreatedBefore.IsZero)
    (hlimit : p1.Limit > 0 ↔ p2.Limit > 0)
    (hoffset : p1.Offset > 0 ↔ p2.Offset > 0)
    (huser : (updateFields u1).map (fun e => decide (e.2 = "")) =
      (updateFields u2).map (fun e => decide (e.2 = ""))) :
    (BuildGetUsersQuery order f1 p1).1 = (BuildGetUsersQuery order f2 p2).1 ∧
    (BuildUpdateUserQuery u1).1 = (BuildUpdateUserQuery u2).1 := by
  constructor
  · rw [BuildGetUsersQuery_eq, BuildGetUsersQuery_eq]
    show baseQuery ++ renderFrom 1 ((bindings order f1 p1).map Prod.fst) =
      baseQuery ++ renderFrom 1 ((bindings order f2 p2).map Prod.fst)
    have hfilter : (order.filter fun k => decide (mapGet (stringFields f1) k ≠ "")) =
        (order.filter fun k => decide (mapGet (stringFields f2) k ≠ "")) := by
      apply List.filter_congr
      intro k _
      have h := mapGet_empty_congr (stringFields f1) (stringFields f2) rfl hstrings k
      simp [h]
    have htime : (timeBindings f1).map Prod.fst = (timeBindings f2).map Prod.fst := by
      unfold timeBindings
      rw [hafter, hbefore]
      cases f2.CreatedAfter.IsZero <;> cases f2.CreatedBefore.IsZero <;> rfl
    have hlim : (limitBinding p1).map Prod.fst = (limitBinding p2).map Prod.fst := by
      unfold limitBinding
      by_cases h : p1.Limit > 0
      · simp [h, hlimit.mp h]
      · have h2 : ¬ p2.Limit > 0 := fun h2 => h (hlimit.mpr h2)
        simp only [if_neg h, if_neg h2]
    have hoff : (offsetBinding p1).map Prod.fst = (offsetBinding p2).map Prod.fst := by
      unfold offsetBinding
      by_cases h : p1.Offset > 0
      · simp [h, hoffset.mp h]
      · have h2 : ¬ p2.Offset > 0 := fun h2 => h (hoffset.mpr h2)
        simp only [if_neg h, if_neg h2]
    rw [bindings_fst, bindings_fst, hfilter]
    simp only [List.map_append, htime, hlim, hoff]
  · rw [BuildUpdateUserQuery_eq, BuildUpdateUserQuery_eq]
    show updateText ((activeFields u1).map Prod.fst) = updateText ((activeFields u2).map Prod.fst)
    unfold activeFields
    rw [filter_nonempty_congr (updateFields u1) (updateFields u2) rfl huser]

/-- Witness of C22: `sampleFilter` and a filter with the same fields set to other
values get the same listing text, and two users with only the address set, to
different values and with different IDs, get the same update text. -/
theorem query_text_ignores_values_witness :
    (BuildGetUsersQuery stringFieldKeys sampleFilter samplePage).1 =
      (BuildGetUsersQuery stringFieldKeys
        { sampleFilter with Name := "x' OR '1'='1", Address := "; DROP TABLE users",
                            CreatedAfter := { sec := 1, nsec := 7 } }
        { Limit := 1000, Offset := -3 }).1 ∧
    (BuildUpdateUserQuery
        { ID := 1, CreatedAt := { sec := 0, nsec := 0 }, UpdatedAt := { sec := 0, nsec := 0 },
          Passport := { Serie := "", Number := "" },
          People := { Name := "", Surname := "", Patronymic := "", Address := "Elm St" } }).1 =
      (BuildUpdateUserQuery
        { ID := 2, CreatedAt := { sec := 0, nsec := 0 }, UpdatedAt := { sec := 0, nsec := 0 },
          Passport := { Serie := "", Number := "" },
          People := { Name := "", Surname := "", Patronymic := "",
                      Address := "x', name = 'y" } }).1 :=
  query_text_ignores_values stringFieldKeys sampleFilter _ samplePage _ _ _
    (by decide) (by decide) (by decide) (by decide) (by decide) (by decide)

/-! ## FinishWorklog on an id that the store does not hold -/

/-- A table in which every row of this id is finished, or that holds no row of
this id, has no row that the statement of `FinishWorklog` changes. -/
theorem no_open_row (worklogID : Int) (s : Store)
    (h : ∀ row ∈ s.worklogs, row.id = worklogID → row.finished_at ≠ none) :
    s.worklogs.filter (isOpen worklogID) = [] := by
  by_contra hne
  obtain ⟨row, hrow, hid, hfin⟩ := (open_row_iff worklogID s).mpr hne
  exact h row hrow hid hfin

/-- C23: for the id `int32(n)` of a request, when the store holds no worklog of
this id and the driver reports no failure, the conditional update of
`FinishWorklog` changes no row, `FinishWorklog` returns `ErrAlreadyDone` and
leaves the store as it was, the handler renders 409 Conflict, and a store in
which the worklog of this id is already finished gets the same error and the
same response. -/
theorem finishWorklog_nonexistent (c : Call) (s : Store) (n : Int)
    (hf : c.fault = none) (hno : ∀ row ∈ s.worklogs, row.id ≠ toInt32 n) :
    s.worklogs.filter (isOpen (toInt32 n)) = [] ∧
    FinishWorklog (Store.QueryRowScan c) (toInt32 n) s = (some ErrAlreadyDone, s) ∧
    FinishWorklogHandler (FinishWorklog (Store.QueryRowScan c)) (.ok n) s =
      (.error (ErrConflict ErrAlreadyDone), s) ∧
    (ErrConflict ErrAlreadyDone).HTTPStatusCode = 409 ∧
    (∀ s2 : Store, (∃ row ∈ s2.worklogs, row.id = toInt32 n) →
      (∀ row ∈ s2.worklogs, row.id = toInt32 n → row.finished_at ≠ none) →
      (FinishWorklog (Store.QueryRowScan c) (toInt32 n) s2).1 =
        (FinishWorklog (Store.QueryRowScan c) (toInt32 n) s).1 ∧
      (FinishWorklogHandler (FinishWorklog (Store.QueryRowScan c)) (.ok n) s2).1 =
        (FinishWorklogHandler (FinishWorklog (Store.QueryRowScan c)) (.ok n) s).1) := by
  have hnil : s.worklogs.filter (isOpen (toInt32 n)) = [] :=
    no_open_row _ s fun row hrow hid => absurd hid (hno row hrow)
  have hfin : ∀ t : Store, t.worklogs.filter (isOpen (toInt32 n)) = [] →
      FinishWorklog (Store.QueryRowScan c) (toInt32 n) t = (some ErrAlreadyDone, t) := by
    intro t ht
    rw [FinishWorklog_store]
    simp [hf, ht]
  have hhandler : ∀ t : Store, t.worklogs.filter (isOpen (toInt32 n)) = [] →
      FinishWorklogHandler (FinishWorklog (Store.QueryRowScan c)) (.ok n) t =
        (.error (ErrConflict ErrAlreadyDone), t) := by
    intro t ht
    simp [FinishWorklogHandler, hfin t ht]
  refine ⟨hnil, hfin s hnil, hhandler s hnil, rfl, ?_⟩
  intro s2 _ hdone
  have hnil2 := no_open_row _ s2 hdone
  rw [hfin s2 hnil2, hfin s hnil, hhandler s2 hnil2, hhandler s hnil]
  exact ⟨rfl, rfl⟩

/-- Witness of C23: `sampleStore` holds the worklog 1 only; finishing the
worklog 7 returns `ErrAlreadyDone` and leaves the store as it was. -/
theorem finishWorklog_nonexistent_witness :
    (∀ row ∈ sampleStore.worklogs, row.id ≠ toInt32 7) ∧
    FinishWorklog (Store.QueryRowScan (sampleCall 100)) (toInt32 7) sampleStore =
      (some ErrAlreadyDone, sampleStore) ∧
    FinishWorklogHandler (FinishWorklog (Store.QueryRowScan (sampleCall 100))) (.ok 7)
      sampleStore = (.error (ErrConflict ErrAlreadyDone), sampleStore) :=
  have h := finishWorklog_nonexistent (sampleCall 100) sampleStore 7 rfl (by decide)
  ⟨by decide, h.2.1, h.2.2.1⟩

/-! ## The status of a domain error -/

/-- C21, as claimed, fails: when the pool reports the unique violation in the
type that `CreateUser` tests for, `CreateUser` returns `ErrPassportDuplicate` and
the handler renders it with status 500; when the pool reports `pgx.ErrNoRows`,
`DeleteUser` returns `ErrUserNotFound` wrapped and the handler renders it with
status 500; so does the handler for `ErrUserNotFound` itself. -/
theorem domain_errors_rendered_500 :
    (CreateUser (fun _ _ s => (.error (.pgError PgPackage.pgconn "23505"), s))
      { ID := 0, CreatedAt := { sec := 0, nsec := 0 }, UpdatedAt := { sec := 0, nsec := 0 },
        Passport := { Serie := "1234", Number := "567890" },
        People := { Name := "Ann", Surname := "Lee", Patronymic := "", Address := "Elm St" } }
      ()).1.2 = some ErrPassportDuplicate ∧
    CreateUserHandler (CreateUser fun _ _ s => (.error (.pgError PgPackage.pgconn "23505"), s))
      (fun _ _ => .ok { Name := "Ann", Surname := "Lee", Patronymic := "", Address := "Elm St" })
      (.ok "1234 567890") () = .ret (.error (ErrInternal ErrPassportDuplicate), ()) ∧
    (ErrInternal ErrPassportDuplicate).HTTPStatusCode = 500 ∧
    DeleteUserHandler (DeleteUser fun _ _ s => (.error pgxErrNoRows, s)) (.ok 7) () =
      (.error (ErrInternal (.wrap "repo.DeleteUser" ErrUserNotFound)), ()) ∧
    errorsIs (.wrap "repo.DeleteUser" ErrUserNotFound) ErrUserNotFound = true ∧
    (ErrInternal (.wrap "repo.DeleteUser" ErrUserNotFound)).HTTPStatusCode = 500 ∧
    (DeleteUserHandler (fun _ s => (some ErrUserNotFound, s)) (.ok 7) ()).1.status = 500 := by
  refine ⟨by decide, by decide, rfl, by decide, by decide, rfl, by decide⟩

/-- C21, amended: the handler of `FinishWorklog` renders `ErrAlreadyDone` with
status 409; the handler of `CreateUser` renders the error of `ParsePassportData`
with status 400; the handler of `Worklogs` renders an end date before the start
date with status 400 and leaves the store alone; the handler of `DeleteUser`
renders every error that the store returns, `ErrUserNotFound` included, with
status 500. -/
theorem handler_status_of_errors :
    (∀ (σ : Type) (worklogFinisher : Int → σ → Option GoError × σ) (n : Int) (s s' : σ),
      worklogFinisher (toInt32 n) s = (some ErrAlreadyDone, s') →
      FinishWorklogHandler worklogFinisher (.ok n) s = (.error (ErrConflict ErrAlreadyDone), s') ∧
      (FinishWorklogHandler worklogFinisher (.ok n) s).1.status = 409) ∧
    (∀ (σ : Type) (userCreator : User → σ → (Int × Option GoError) × σ)
      (fetchPeopleInfo : String → String → Except GoError People) (passportNumber msg : String)
      (s : σ), ParsePassportData passportNumber = .err msg →
      CreateUserHandler userCreator fetchPeopleInfo (.ok passportNumber) s =
        .ret (.error (ErrInvalidRequest (.errorf msg)), s) ∧
      (ErrInvalidRequest (.errorf msg)).HTTPStatusCode = 400) ∧
    (∀ (σ : Type) (worklogsGetter : Int → Time → Time → σ → Except GoError (List Worklog) × σ)
      (userID : Int) (req : WorklogsRequest) (s : σ),
      req.EndDate.Before req.StartDate = true →
      (WorklogsHandler worklogsGetter (.ok userID) (.ok req) s).1.status = 400 ∧
      (WorklogsHandler worklogsGetter (.ok userID) (.ok req) s).2 = s) ∧
    (∀ (σ : Type) (userDeleter : Int → σ → Option GoError × σ) (n : Int) (err : GoError)
      (s s' : σ), userDeleter (toInt32 n) s = (some err, s') →
      DeleteUserHandler userDeleter (.ok n) s = (.error (ErrInternal err), s') ∧
      (DeleteUserHandler userDeleter (.ok n) s).1.status = 500) := by
  refine ⟨?_, ?_, ?_, ?_⟩
  · intro σ worklogFinisher n s s' h
    simp [FinishWorklogHandler, h, Response.status, ErrConflict]
  · intro σ userCreator fetchPeopleInfo passportNumber msg s h
    simp [CreateUserHandler, h, ErrInvalidRequest]
  · intro σ worklogsGetter userID req s h
    simp [WorklogsHandler, h, Response.status, ErrInvalidRequest]
  · intro σ userDeleter n err s s' h
    simp [DeleteUserHandler, h, Response.status, ErrInternal]

/-- Witness of C21, amended: finishing the worklog 7, which `sampleStore` does
not hold, is answered with 409; the passport string `"12345 1234567 x"` with
400; a range that ends before it starts with 400; deleting on a pool that
reports `pgx.ErrNoRows` with 500. -/
theorem handler_status_of_errors_witness :
    (FinishWorklogHandler (FinishWorklog (Store.QueryRowScan (sampleCall 100))) (.ok 7)
      sampleStore).1.status = 409 ∧
    CreateUserHandler (fun _ (s : Unit) => ((0, none), s)) (fun _ _ => .error (.other "down"))
      (.ok "12345 1234567 x") () =
      .ret (.error (ErrInvalidRequest (.errorf errInvalidFormat)), ()) ∧
    (WorklogsHandler (fun _ _ _ (s : Unit) => (.ok [], s)) (.ok 5)
      (.ok { StartDate := { sec := 200, nsec := 0 }, EndDate := { sec := 100, nsec := 0 } })
      ()).1.status = 400 ∧
    (DeleteUserHandler (DeleteUser fun _ _ (s : Unit) => (.error pgxErrNoRows, s)) (.ok 7)
      ()).1.status = 500 :=
  ⟨(handler_status_of_errors.1 Store _ 7 sampleStore sampleStore (by decide)).2,
   (handler_status_of_errors.2.1 Unit _ _ "12345 1234567 x" errInvalidFormat ()
      (by decide)).1,
   (handler_status_of_errors.2.2.1 Unit _ 5 _ () (by decide)).1,
   (handler_status_of_errors.2.2.2 Unit _ 7 (.wrap "repo.DeleteUser" ErrUserNotFound) () ()
      (by decide)).2⟩

end TimeTracker
